import Mathlib

/-!
# The copyright command-line client (`main.go`)

A shallow embedding of the menu handlers of `main.go`.

* Go strings and byte slices are sequences of Unicode scalar values (`Text`),
  that is, every text is taken to be valid UTF-8; the conversions `[]byte(s)`
  and `string(b)` copy the sequence unchanged.
* The two process-wide variables `sdkClient` and `currentAccount`, the shared
  standard-input reader and standard output are fields of `World`, which every
  handler takes and returns.  `World.calls` records, in order, every call made
  to the blockchain client library.
* The client library, the file system and `filepath.Join` are outside the
  program: their answers are the fields of `Env`.
-/

namespace GoTest

/-! ## Text and the `strings` / `strconv` / `bufio` functions used -/

/-- Go `string` and `[]byte` values. -/
abbrev Text := List Char

/-- Go `unicode.IsSpace`. -/
def isSpace (c : Char) : Bool :=
  let n := c.toNat
  (9 ≤ n && n ≤ 13) || n == 32 || n == 133 || n == 160 || n == 5760 ||
  (8192 ≤ n && n ≤ 8202) || n == 8232 || n == 8233 || n == 8239 || n == 8287 || n == 12288

/-- Go `strings.TrimSpace`: remove leading and trailing white space. -/
def trimSpace (s : Text) : Text :=
  ((s.dropWhile isSpace).reverse.dropWhile isSpace).reverse

/-- Go `(*bufio.Reader).ReadString` with delimiter newline, the error dropped:
the text up to and including the first newline (or everything left at end of
input), and the unread remainder. -/
def readString : Text → Text × Text
  | [] => ([], [])
  | c :: cs =>
    if c = '\n' then ([c], cs)
    else ((c :: (readString cs).1), (readString cs).2)

/-- The two error kinds of `strconv.NumError`. -/
inductive NumError
  | errSyntax
  | errRange
  deriving DecidableEq

def maxUint64 : Nat := 2 ^ 64 - 1

/-- The digit loop of `strconv.ParseUint(s, 10, 64)`; `n` is the accumulator. -/
def parseUintLoop : Text → Nat → Except NumError Nat
  | [], n => .ok n
  | c :: cs, n =>
    if 48 ≤ c.toNat ∧ c.toNat ≤ 57 then
      let d := c.toNat - 48
      -- cutoff is the smallest number such that cutoff*10 > maxUint64
      if n ≥ maxUint64 / 10 + 1 then .error .errRange
      else
        let n0 := n * 10
        let n1 := (n0 + d) % 2 ^ 64
        if n1 < n0 ∨ n1 > maxUint64 then .error .errRange
        else parseUintLoop cs n1
    else .error .errSyntax

/-- Go `strconv.ParseUint(s, 10, 64)`. -/
def parseUint (s : Text) : Except NumError Nat :=
  if s = [] then .error .errSyntax else parseUintLoop s 0

/-- Go `strconv.ParseInt(s, 10, 64)`. -/
def parseInt (s : Text) : Except NumError Int :=
  match s with
  | [] => .error .errSyntax
  | c :: cs =>
    let neg := c = '-'
    let body := if c = '+' ∨ c = '-' then cs else s
    match parseUint body with
    | .error e => .error e
    | .ok un =>
      if ¬ neg ∧ un ≥ 2 ^ 63 then .error .errRange
      else if neg ∧ un > 2 ^ 63 then .error .errRange
      else .ok (if neg then - (un : Int) else (un : Int))

/-- Go `strconv.Atoi` on a platform whose `int` has 64 bits: the value
(0 on error) and the error. -/
def atoi (s : Text) : Int × Option NumError :=
  match parseInt s with
  | .ok n => (n, none)
  | .error e => (0, some e)

/-- Go conversion `uint8(x)` of an `int`. -/
def uint8 (x : Int) : Nat := (x % 256).toNat

/-! ## Data of the client library -/

/-- The library's `account.Account`. -/
structure Account where
  Address : Text
  Mnemonic : Text
  PrivateKey : Text
  PublicKey : Text
  deriving DecidableEq

/-- The library's `xuper.XClient` handle: the node it was opened on. -/
structure XClient where
  node : Text
  deriving DecidableEq

/-- Go `map[string]string` / `map[string][]byte`, as its entries. -/
abbrev ArgMap := List (Text × Text)

/-- The library's `pb.ContractResponse`. -/
structure ContractResponse where
  Status : Int
  Message : Text
  Body : Text
  deriving DecidableEq

/-- The fields of the pre-execution result of a query that the client reads. -/
structure PreExeRes where
  ContractResponse : ContractResponse
  GasUsed : Int
  deriving DecidableEq

/-- The fields of a block that the client reads. -/
structure BlockInfo where
  Blockid : Text
  PreHash : List Nat
  Transactions : Nat
  Timestamp : Int
  deriving DecidableEq

/-- The fields of a transaction that the client reads: each contract request
is a contract name and a method name. -/
structure TxInfo where
  Blockid : List Nat
  Initiator : Text
  ContractRequests : List (Text × Text)
  deriving DecidableEq

/-- The fields of the chain status that the client reads. -/
structure ChainStatus where
  TrunkHeight : Int
  TipBlockid : List Nat
  deriving DecidableEq

/-- One call to the client library, with its arguments. -/
inductive LibCall
  | CreateAndSaveAccountToFile (dir password : Text) (strength : Nat) (language : Int)
  | GetAccountFromFile (path password : Text)
  | QueryBalance (address : Text)
  | DeployNativeGoContract (from_ : Account) (name : Text) (code : Text) (args : ArgMap)
  | QueryNativeContract (from_ : Account) (name method : Text) (args : ArgMap)
  | InvokeNativeContract (from_ : Account) (name method : Text) (args : ArgMap)
  | QueryBlockByHeight (height : Int)
  | QueryTxByID (txID : Text)
  | QueryBlockChainStatus (chain : Text)
  deriving DecidableEq

/-- Everything outside the program: what each library call, `ioutil.ReadFile`
and `filepath.Join` return.  An error is its message. -/
structure Env where
  CreateAndSaveAccountToFile : Text → Text → Nat → Int → Except Text Account
  GetAccountFromFile : Text → Text → Except Text Account
  QueryBalance : Text → Except Text Int
  DeployNativeGoContract : Account → Text → Text → ArgMap → Except Text Text
  QueryNativeContract : Account → Text → Text → ArgMap → Except Text PreExeRes
  InvokeNativeContract : Account → Text → Text → ArgMap → Except Text Text
  QueryBlockByHeight : Int → Except Text BlockInfo
  QueryTxByID : Text → Except Text TxInfo
  QueryBlockChainStatus : Text → Except Text ChainStatus
  ReadFile : Text → Except Text Text
  Join : Text → Text → Text

/-! ## The `encoding/json` functions used

`json.Unmarshal` first checks the whole input against the JSON grammar and then
stores the value; `parseJSON` is the grammar (with string escapes resolved),
`decodeValue` the conversion of a parsed value to the Go value that
`interface{}` holds.  Numbers become `float64`: the two `strconv` conversions
between a number literal and a `float64` are the fields of `FloatCodec`.
The scanner's limit on nesting (Go 1.15 and later) is part of the grammar. -/

/-- A JSON value whose numbers are of type `N`.  With `N := Text` (the number
literal) it is a parsed document, members in document order; with `N := F` it
is the Go value stored in an `interface{}`, an object being a
`map[string]interface{}` given by its entries in increasing key order. -/
inductive JValue (N : Type)
  | null
  | bool (b : Bool)
  | number (n : N)
  | string (s : Text)
  | array (xs : List (JValue N))
  | object (ms : List (Text × JValue N))

/-- The conversions between a JSON number literal and `float64`:
`strconv.ParseFloat(lit, 64)` as used by the decoder (`none` when the value is
out of range) and the formatting of a `float64` by the encoder. -/
structure FloatCodec (F : Type) where
  parseFloat : Text → Option F
  formatFloat : F → Text

def dquote : Char := Char.ofNat 34

def backslash : Char := Char.ofNat 92

/-- JSON white space: space, tab, carriage return, newline. -/
def isWS (c : Char) : Bool := c = ' ' || c = '\t' || c = '\r' || c = '\n'

def skipWS : Text → Text
  | [] => []
  | c :: cs => if isWS c then skipWS cs else c :: cs

def isDigit (c : Char) : Bool := 48 ≤ c.toNat && c.toNat ≤ 57

/-- The longest run of decimal digits at the front, and what follows. -/
def spanDigits : Text → Text × Text
  | [] => ([], [])
  | c :: cs => if isDigit c then (c :: (spanDigits cs).1, (spanDigits cs).2) else ([], c :: cs)

/-- The exponent part of a number, if `s` starts one: `e` or `E`, an optional
sign, at least one digit. -/
def scanExp (s : Text) : Option (Text × Text) :=
  match s with
  | [] => some ([], [])
  | c :: r =>
    if c = 'e' ∨ c = 'E' then
      match r with
      | [] => none
      | g :: r1 =>
        if g = '+' ∨ g = '-' then
          if (spanDigits r1).1 = [] then none
          else some (c :: g :: (spanDigits r1).1, (spanDigits r1).2)
        else
          if (spanDigits r).1 = [] then none
          else some (c :: (spanDigits r).1, (spanDigits r).2)
    else some ([], s)

/-- The fraction part of a number, if `s` starts one: a dot and at least one
digit; then the exponent part. -/
def scanFrac (s : Text) : Option (Text × Text) :=
  match s with
  | [] => some ([], [])
  | c :: r =>
    if c = '.' then
      if (spanDigits r).1 = [] then none
      else (scanExp (spanDigits r).2).map (fun p => (c :: (spanDigits r).1 ++ p.1, p.2))
    else scanExp s

/-- The integer part of a number: a single `0`, or a digit `1`-`9` followed by
digits; then fraction and exponent. -/
def scanInt (s : Text) : Option (Text × Text) :=
  match s with
  | [] => none
  | c :: r =>
    if c = '0' then (scanFrac r).map (fun p => (c :: p.1, p.2))
    else if isDigit c then
      (scanFrac (spanDigits r).2).map (fun p => (c :: (spanDigits r).1 ++ p.1, p.2))
    else none

/-- The number states of the Go scanner: the number literal at the front of
`s` and what follows it; `none` when the front is not a number. -/
def scanNumber (s : Text) : Option (Text × Text) :=
  match s with
  | [] => none
  | c :: r => if c = '-' then (scanInt r).map (fun p => (c :: p.1, p.2)) else scanInt s

/-- The text is exactly one JSON number literal. -/
def isNumberLiteral (s : Text) : Bool :=
  match scanNumber s with
  | some (_, []) => true
  | _ => false

def hexVal (c : Char) : Option Nat :=
  let n := c.toNat
  if 48 ≤ n ∧ n ≤ 57 then some (n - 48)
  else if 97 ≤ n ∧ n ≤ 102 then some (n - 87)
  else if 65 ≤ n ∧ n ≤ 70 then some (n - 55)
  else none

/-- Four hexadecimal digits at the front of `s`, as a number (Go `getu4`
after the backslash and the `u`). -/
def getHex4 (s : Text) : Option (Nat × Text) :=
  match s with
  | a :: b :: c :: d :: r =>
    match hexVal a, hexVal b, hexVal c, hexVal d with
    | some x, some y, some z, some w => some (((x * 16 + y) * 16 + z) * 16 + w, r)
    | _, _, _, _ => none
  | _ => none

/-- The character a one-letter escape stands for. -/
def simpleEscape (e : Char) : Option Char :=
  if e = dquote then some dquote
  else if e = backslash then some backslash
  else if e = '/' then some '/'
  else if e = 'b' then some (Char.ofNat 8)
  else if e = 'f' then some (Char.ofNat 12)
  else if e = 'n' then some '\n'
  else if e = 'r' then some '\r'
  else if e = 't' then some '\t'
  else none

/-- The low half of a surrogate pair right after a high half `u`, as an
escape at the front of `s`: the combined character and the rest. -/
def lowSurrogate (u : Nat) (s : Text) : Option (Char × Text) :=
  match s with
  | b :: c :: r =>
    if b = backslash ∧ c = 'u' ∧ u < 56320 then
      match getHex4 r with
      | some (u2, r1) =>
        if 56320 ≤ u2 ∧ u2 < 57344 then
          some (Char.ofNat ((u - 55296) * 1024 + (u2 - 56320) + 65536), r1)
        else none
      | none => none
    else none
  | _ => none

/-- The body of a string literal after its opening quote, up to and including
the closing quote (Go scanner string states and `unquote`): the text it stands
for and what follows.  Control characters and unknown escapes are errors; a
surrogate escape that is not the first half of a pair becomes U+FFFD. -/
def unquote : Nat → Text → Option (Text × Text)
  | 0, _ => none
  | _ + 1, [] => none
  | f + 1, c :: r =>
    if c = dquote then some ([], r)
    else if c = backslash then
      match r with
      | [] => none
      | e :: r1 =>
        if e = 'u' then
          match getHex4 r1 with
          | none => none
          | some (u, r2) =>
            if 55296 ≤ u ∧ u < 57344 then
              match lowSurrogate u r2 with
              | some (ch, r3) => (unquote f r3).map (fun p => (ch :: p.1, p.2))
              | none => (unquote f r2).map (fun p => (Char.ofNat 65533 :: p.1, p.2))
            else (unquote f r2).map (fun p => (Char.ofNat u :: p.1, p.2))
        else
          match simpleEscape e with
          | some ch => (unquote f r1).map (fun p => (ch :: p.1, p.2))
          | none => none
    else if c.toNat < 32 then none
    else (unquote f r).map (fun p => (c :: p.1, p.2))

/-- The given word at the front of `s`, removed. -/
def expect (word : Text) (s : Text) : Option Text :=
  if word <+: s then some (s.drop word.length) else none

/-- The limit of the Go scanner on the number of arrays and objects that are
open at the same time. -/
def maxNestingDepth : Nat := 10000

mutual
/-- One JSON value at the front of `s` (after white space) and what follows;
`k` arrays and objects are open around it. -/
def parseValue : Nat → Nat → Text → Option (JValue Text × Text)
  | 0, _, _ => none
  | f + 1, k, s =>
    match skipWS s with
    | [] => none
    | c :: r =>
      if c = '{' then
        if maxNestingDepth ≤ k then none
        else
          match skipWS r with
          | [] => none
          | c1 :: r1 =>
            if c1 = '}' then some (.object [], r1)
            else (parseMembers f (k + 1) (c1 :: r1)).map (fun p => (.object p.1, p.2))
      else if c = '[' then
        if maxNestingDepth ≤ k then none
        else
          match skipWS r with
          | [] => none
          | c1 :: r1 =>
            if c1 = ']' then some (.array [], r1)
            else (parseElems f (k + 1) (c1 :: r1)).map (fun p => (.array p.1, p.2))
      else if c = dquote then (unquote (r.length + 1) r).map (fun p => (.string p.1, p.2))
      else if c = 't' then (expect ['r', 'u', 'e'] r).map (fun r1 => (.bool true, r1))
      else if c = 'f' then (expect ['a', 'l', 's', 'e'] r).map (fun r1 => (.bool false, r1))
      else if c = 'n' then (expect ['u', 'l', 'l'] r).map (fun r1 => (.null, r1))
      else (scanNumber (c :: r)).map (fun p => (.number p.1, p.2))
/-- The elements of a non-empty array up to and including the closing
bracket. -/
def parseElems : Nat → Nat → Text → Option (List (JValue Text) × Text)
  | 0, _, _ => none
  | f + 1, k, s =>
    match parseValue f k s with
    | none => none
    | some (v, r) =>
      match skipWS r with
      | [] => none
      | c :: r1 =>
        if c = ',' then (parseElems f k r1).map (fun p => (v :: p.1, p.2))
        else if c = ']' then some ([v], r1)
        else none
/-- The members of a non-empty object up to and including the closing
brace. -/
def parseMembers : Nat → Nat → Text → Option (List (Text × JValue Text) × Text)
  | 0, _, _ => none
  | f + 1, k, s =>
    match skipWS s with
    | [] => none
    | q :: r =>
      if q = dquote then
        match unquote (r.length + 1) r with
        | none => none
        | some (key, r1) =>
          match skipWS r1 with
          | [] => none
          | c :: r2 =>
            if c = ':' then
              match parseValue f k r2 with
              | none => none
              | some (v, r3) =>
                match skipWS r3 with
                | [] => none
                | c1 :: r4 =>
                  if c1 = ',' then
                    (parseMembers f k r4).map (fun p => ((key, v) :: p.1, p.2))
                  else if c1 = '}' then some ([(key, v)], r4)
                  else none
            else none
      else none
end

/-- The whole text is one JSON value, white space around it allowed: the
validity check at the start of `json.Unmarshal` (`json.Valid`). -/
def parseJSON (s : Text) : Option (JValue Text) :=
  match parseValue (s.length + 1) 0 s with
  | none => none
  | some (v, r) => if skipWS r = [] then some v else none

/-- Go string order `<` on keys (on valid UTF-8 the byte order is the order
of the code points). -/
def keyLt : Text → Text → Bool
  | _, [] => false
  | [], _ :: _ => true
  | a :: as, b :: bs => a.toNat < b.toNat || (a = b && keyLt as bs)

/-- Go map assignment `m[k] = v` on the entries kept in increasing key order. -/
def mapInsert {F : Type} (k : Text) (v : JValue F) : List (Text × JValue F) → List (Text × JValue F)
  | [] => [(k, v)]
  | (k1, v1) :: ms =>
    if keyLt k k1 then (k, v) :: (k1, v1) :: ms
    else if k = k1 then (k, v) :: ms
    else (k1, v1) :: mapInsert k v ms

mutual
/-- The Go value the decoder stores in an `interface{}` for a parsed value;
`none` when a number does not convert. -/
def decodeValue {F : Type} (c : FloatCodec F) : JValue Text → Option (JValue F)
  | .null => some .null
  | .bool b => some (.bool b)
  | .number lit => (c.parseFloat lit).map .number
  | .string s => some (.string s)
  | .array xs => (decodeElems c xs).map .array
  | .object ms => (decodeMembers c ms []).map .object
def decodeElems {F : Type} (c : FloatCodec F) : List (JValue Text) → Option (List (JValue F))
  | [] => some []
  | x :: xs =>
    match decodeValue c x, decodeElems c xs with
    | some y, some ys => some (y :: ys)
    | _, _ => none
/-- The members are assigned to the map in document order, so of two equal
keys the later one stays. -/
def decodeMembers {F : Type} (c : FloatCodec F) :
    List (Text × JValue Text) → List (Text × JValue F) → Option (List (Text × JValue F))
  | [], acc => some acc
  | (k, v) :: ms, acc =>
    match decodeValue c v with
    | some y => decodeMembers c ms (mapInsert k y acc)
    | none => none
end

/-- Go `json.Unmarshal(body, &v)` for `v` of type `interface{}`. -/
def unmarshalAny {F : Type} (c : FloatCodec F) (body : Text) : Option (JValue F) :=
  match parseJSON body with
  | none => none
  | some t => decodeValue c t

/-- Go `json.Unmarshal(body, &m)` for a nil `m` of type
`map[string]interface{}`: `none` is a non-nil error, `some none` leaves the
map nil (the body is `null`), `some (some es)` is the map of entries `es`.
Any value other than an object or `null` is a type error. -/
def unmarshalMap {F : Type} (c : FloatCodec F) (body : Text) :
    Option (Option (List (Text × JValue F))) :=
  match parseJSON body with
  | none => none
  | some (.object ms) => (decodeMembers c ms []).map some
  | some .null => some none
  | some _ => none

def hexDigit (n : Nat) : Char :=
  if n < 10 then Char.ofNat (48 + n) else Char.ofNat (87 + n)

/-- The encoder's form of one character of a string (HTML escaping on).
U+0008 and U+000C are written as `\u0008` and `\u000c`, as before Go 1.22. -/
def quoteChar (c : Char) : Text :=
  if c = dquote then [backslash, dquote]
  else if c = backslash then [backslash, backslash]
  else if c = '\n' then [backslash, 'n']
  else if c = '\r' then [backslash, 'r']
  else if c = '\t' then [backslash, 't']
  else if c.toNat < 32 ∨ c = '<' ∨ c = '>' ∨ c = '&' then
    [backslash, 'u', '0', '0', hexDigit (c.toNat / 16), hexDigit (c.toNat % 16)]
  else if c.toNat = 8232 then [backslash, 'u', '2', '0', '2', '8']
  else if c.toNat = 8233 then [backslash, 'u', '2', '0', '2', '9']
  else [c]

def quoteBody : Text → Text
  | [] => []
  | c :: cs => quoteChar c ++ quoteBody cs

/-- The encoder's string literal for `s`. -/
def quote (s : Text) : Text := dquote :: (quoteBody s ++ [dquote])

/-- A line break followed by `d` copies of the two-space indent. -/
def newline (d : Nat) : Text := '\n' :: List.replicate (2 * d) ' '

mutual
/-- The text of `json.MarshalIndent` with empty line lead and two-space
indent, for a value at nesting depth `d`. -/
def render (d : Nat) : JValue Text → Text
  | .null => ['n', 'u', 'l', 'l']
  | .bool b => if b then ['t', 'r', 'u', 'e'] else ['f', 'a', 'l', 's', 'e']
  | .number lit => lit
  | .string s => quote s
  | .array [] => ['[', ']']
  | .array (x :: xs) => '[' :: (newline (d + 1) ++ renderElems (d + 1) (x :: xs) ++ newline d ++ [']'])
  | .object [] => ['{', '}']
  | .object (m :: ms) =>
    '{' :: (newline (d + 1) ++ renderMembers (d + 1) (m :: ms) ++ newline d ++ ['}'])
def renderElems (d : Nat) : List (JValue Text) → Text
  | [] => []
  | x :: xs =>
    render d x ++ (match xs with
      | [] => []
      | _ :: _ => ',' :: newline d) ++ renderElems d xs
def renderMembers (d : Nat) : List (Text × JValue Text) → Text
  | [] => []
  | (k, v) :: ms =>
    quote k ++ ':' :: ' ' :: render d v ++ (match ms with
      | [] => []
      | _ :: _ => ',' :: newline d) ++ renderMembers d ms
end

mutual
/-- The document the encoder writes for a Go value: every `float64` as its
formatted literal, the entries of a map in increasing key order. -/
def encodeValue {F : Type} (c : FloatCodec F) : JValue F → JValue Text
  | .null => .null
  | .bool b => .bool b
  | .number f => .number (c.formatFloat f)
  | .string s => .string s
  | .array xs => .array (encodeElems c xs)
  | .object ms => .object (encodeMembers c ms)
def encodeElems {F : Type} (c : FloatCodec F) : List (JValue F) → List (JValue Text)
  | [] => []
  | x :: xs => encodeValue c x :: encodeElems c xs
def encodeMembers {F : Type} (c : FloatCodec F) :
    List (Text × JValue F) → List (Text × JValue Text)
  | [] => []
  | (k, v) :: ms => (k, encodeValue c v) :: encodeMembers c ms
end

/-- Go `json.MarshalIndent(m, "", "  ")` for `m` of type
`map[string]interface{}`; a nil map is written `null`. -/
def marshalIndent {F : Type} (c : FloatCodec F) : Option (List (Text × JValue F)) → Text
  | none => ['n', 'u', 'l', 'l']
  | some ms => render 0 (encodeValue c (.object ms))

/-! ## Session, output and the handlers of `main.go` -/

def nodeAddr : Text := "127.0.0.1:37101".toList

def chainName : Text := "xuper".toList

def keysDir : Text := "./keys".toList

def contractCodeDir : Text := "./contract".toList

/-- One `fmt.Print`, `fmt.Println` or `fmt.Printf` of the handlers, with the
values it formats. -/
inductive Msg
  | prompt (text : Text)
  | title (text : Text)
  | exiting
  | invalidOption
  | createFailed (err : Text)
  | createOk
  | showAddress (address : Text)
  | showMnemonic (mnemonic : Text)
  | showPrivateKey (key : Text)
  | showPublicKey (key : Text)
  | showKeyFile (dir address : Text)
  | nowCurrent
  | zeroBalanceNote
  | loadFailed (address err : Text)
  | loadOk (address : Text)
  | needAccount
  | balanceFailed (address err : Text)
  | balance (address : Text) (amount : Int)
  | needAccountForDeploy
  | emptyContractName
  | readCodeFailed (path err : Text)
  | deployFailed (name err : Text)
  | deploySent (name txid : Text)
  | deployCheckLater
  | queryFailed (contract method err : Text)
  | contractFailed (message : Text)
  | contractBody (body : Text)
  | querySuccess (contract method : Text)
  | gasUsed (gas : Int)
  | rawResult (body : Text)
  | formatted (text : Text)
  | invokeFailed (contract method err : Text)
  | invokeSent (contract method txid : Text)
  | confirmLater
  | invalidHeight
  | blockFailed (height : Int) (err : Text)
  | blockHeader (height : Int)
  | blockId (id : Text)
  | blockPreHash (hash : List Nat)
  | blockTxCount (n : Nat)
  | blockTimestamp (t : Int)
  | txFailed (txID err : Text)
  | txHeader (txID : Text)
  | txBlockId (id : List Nat)
  | txInitiator (address : Text)
  | txRequest (index : Nat)
  | txRequestContract (name : Text)
  | txRequestMethod (name : Text)
  | statusFailed (chain err : Text)
  | statusHeader (chain : Text)
  | statusHeight (h : Int)
  | statusTip (id : List Nat)

/-- The verb `%d`. -/
def fmtInt (n : Int) : Text := (toString n).toList

/-- The verb `%x` on a byte slice. -/
def fmtHex : List Nat → Text
  | [] => []
  | b :: bs => hexDigit (b / 16 % 16) :: hexDigit (b % 16) :: fmtHex bs

/-- The text each message writes to standard output. -/
def Msg.text : Msg → Text
  | .prompt t => t
  | .title t => t ++ ['\n']
  | .exiting => "正在退出...\n".toList
  | .invalidOption => "无效选项，请重试。\n".toList
  | .createFailed e => "创建并保存账户失败: ".toList ++ e ++ ['\n']
  | .createOk => "账户创建成功!\n".toList
  | .showAddress a => "  地址: ".toList ++ a ++ ['\n']
  | .showMnemonic m => "  助记词: ".toList ++ m ++ ['\n']
  | .showPrivateKey k => "  私钥 (JSON): ".toList ++ k ++ ['\n']
  | .showPublicKey k => "  公钥 (JSON): ".toList ++ k ++ ['\n']
  | .showKeyFile d a => "  账户文件保存在: ".toList ++ d ++ ['/'] ++ a ++ ".json\n".toList
  | .nowCurrent => "新创建的账户已设为当前操作账户。\n".toList
  | .zeroBalanceNote => "注意: 新账户余额为0，进行交易前请确保有足够余额。\n".toList
  | .loadFailed a e => "从文件加载账户 ".toList ++ a ++ " 失败: ".toList ++ e ++ ['\n']
  | .loadOk a => "账户 ".toList ++ a ++ " 加载成功，并设为当前操作账户。\n".toList
  | .needAccount => "请先加载或创建账户。\n".toList
  | .balanceFailed a e => "查询账户 ".toList ++ a ++ " 余额失败: ".toList ++ e ++ ['\n']
  | .balance a n => "账户 ".toList ++ a ++ " 的余额: ".toList ++ fmtInt n ++ ['\n']
  | .needAccountForDeploy => "请先加载或创建账户用于部署合约。\n".toList
  | .emptyContractName => "合约名称不能为空。\n".toList
  | .readCodeFailed p e => "读取合约代码文件 ".toList ++ p ++ " 失败: ".toList ++ e ++ ['\n']
  | .deployFailed n e => "部署合约 ".toList ++ n ++ " 失败: ".toList ++ e ++ ['\n']
  | .deploySent n t => "合约 ".toList ++ n ++ " 部署交易已发送, TxID: ".toList ++ t ++ ['\n']
  | .deployCheckLater => "请稍后查询交易状态以确认部署成功。\n".toList
  | .queryFailed c m e =>
    "查询合约 ".toList ++ c ++ "::".toList ++ m ++ " 失败: ".toList ++ e ++ ['\n']
  | .contractFailed m => "合约查询执行失败: ".toList ++ m ++ ['\n']
  | .contractBody b => "合约返回Body: ".toList ++ b ++ ['\n']
  | .querySuccess c m => "合约查询 ".toList ++ c ++ "::".toList ++ m ++ " 成功:\n".toList
  | .gasUsed g => "  Gas消耗: ".toList ++ fmtInt g ++ ['\n']
  | .rawResult b => "  返回结果: ".toList ++ b ++ ['\n']
  | .formatted t => "  格式化结果:\n".toList ++ t ++ ['\n']
  | .invokeFailed c m e =>
    "调用合约 ".toList ++ c ++ "::".toList ++ m ++ " 失败: ".toList ++ e ++ ['\n']
  | .invokeSent c m t =>
    "合约调用 ".toList ++ c ++ "::".toList ++ m ++ " 交易已发送, TxID: ".toList ++ t ++ ['\n']
  | .confirmLater => "请稍后查询交易状态以确认。\n".toList
  | .invalidHeight => "无效的区块高度。\n".toList
  | .blockFailed h e => "查询区块 ".toList ++ fmtInt h ++ " 失败: ".toList ++ e ++ ['\n']
  | .blockHeader h => "--- 区块信息 (高度: ".toList ++ fmtInt h ++ ") ---\n".toList
  | .blockId i => "  区块ID: ".toList ++ i ++ ['\n']
  | .blockPreHash h => "  前序区块ID: ".toList ++ fmtHex h ++ ['\n']
  | .blockTxCount n => "  交易数量: ".toList ++ fmtInt n ++ ['\n']
  | .blockTimestamp t => "  时间戳: ".toList ++ fmtInt t ++ ['\n']
  | .txFailed i e => "查询交易 ".toList ++ i ++ " 失败: ".toList ++ e ++ ['\n']
  | .txHeader i => "--- 交易信息 (TxID: ".toList ++ i ++ ") ---\n".toList
  | .txBlockId i => "  区块ID: ".toList ++ fmtHex i ++ ['\n']
  | .txInitiator a => "  发起者: ".toList ++ a ++ ['\n']
  | .txRequest i => "  合约请求[".toList ++ fmtInt i ++ "]:\n".toList
  | .txRequestContract n => "    合约名: ".toList ++ n ++ ['\n']
  | .txRequestMethod n => "    方法名: ".toList ++ n ++ ['\n']
  | .statusFailed c e => "查询链 ".toList ++ c ++ " 状态失败: ".toList ++ e ++ ['\n']
  | .statusHeader c => "--- 链状态 (".toList ++ c ++ ") ---\n".toList
  | .statusHeight h => "  最新区块高度: ".toList ++ fmtInt h ++ ['\n']
  | .statusTip i => "  最新区块ID: ".toList ++ fmtHex i ++ ['\n']

/-- The state a handler runs in: the two package variables, the unread
standard input, what has been printed, the library calls made, and the exit
status once `os.Exit` has been called. -/
structure World where
  sdkClient : XClient
  currentAccount : Option Account
  stdin : Text
  stdout : List Msg
  calls : List LibCall
  exited : Option Int

def emit (m : Msg) (w : World) : World := { w with stdout := w.stdout ++ [m] }

def call (c : LibCall) (w : World) : World := { w with calls := w.calls ++ [c] }

/-- The function `getStringInput`: print the prompt, read one line, trim it. -/
def getStringInput (prompt : Text) (w : World) : Text × World :=
  let w1 := emit (.prompt prompt) w
  (trimSpace (readString w1.stdin).1, { w1 with stdin := (readString w1.stdin).2 })

/-- The trimmed text of line `i` (counted from 0) of the unread input `s`:
what call number `i` of `getStringInput` returns. -/
def inputLine : Text → Nat → Text
  | s, 0 => trimSpace (readString s).1
  | s, i + 1 => inputLine (readString s).2 i

/-- The input left unread after `i` lines have been read. -/
def afterLines : Text → Nat → Text
  | s, 0 => s
  | s, i + 1 => afterLines (readString s).2 i

/-- The strength that `createAndSaveAccount` takes from the line entered:
`strength, err := strconv.Atoi(strengthStr)`, replaced by 2 when
`err != nil || strength < 1 || strength > 3`. -/
def strengthOf (strengthStr : Text) : Int :=
  let a := atoi strengthStr
  if a.2 ≠ none ∨ a.1 < 1 ∨ a.1 > 3 then 2 else a.1

/-- The language that `createAndSaveAccount` takes from the line entered:
`language, err := strconv.Atoi(langStr)`, replaced by 2 when
`err != nil || (language != 1 && language != 2)`. -/
def languageOf (langStr : Text) : Int :=
  let a := atoi langStr
  if a.2 ≠ none ∨ (a.1 ≠ 1 ∧ a.1 ≠ 2) then 2 else a.1

/-- The handler `createAndSaveAccount` (menu 1). -/
def createAndSaveAccount (env : Env) (w : World) : World :=
  let r1 := getStringInput "输入助记词强度 (1:弱, 2:中, 3:强, 默认2): ".toList w
  let strength := strengthOf r1.1
  let r2 := getStringInput "输入助记词语言 (1:中文, 2:英文, 默认2): ".toList r1.2
  let language := languageOf r2.1
  let r3 := getStringInput "输入加密账户文件的密码 (可留空): ".toList r2.2
  let password := r3.1
  let w1 := call (.CreateAndSaveAccountToFile keysDir password (uint8 strength) language) r3.2
  match env.CreateAndSaveAccountToFile keysDir password (uint8 strength) language with
  | .error err => emit (.createFailed err) w1
  | .ok acc =>
    let w2 := w1 |> emit .createOk |> emit (.showAddress acc.Address)
      |> emit (.showMnemonic acc.Mnemonic) |> emit (.showPrivateKey acc.PrivateKey)
      |> emit (.showPublicKey acc.PublicKey) |> emit (.showKeyFile keysDir acc.Address)
    { w2 with currentAccount := some acc } |> emit .nowCurrent |> emit .zeroBalanceNote

/-- The handler `loadAccountFromFile` (menu 2). -/
def loadAccountFromFile (env : Env) (w : World) : World :=
  let r1 := getStringInput "输入要加载的账户地址: ".toList w
  let address := r1.1
  let r2 := getStringInput "输入账户文件密码 (如果设置过): ".toList r1.2
  let password := r2.1
  let filePath := env.Join keysDir (address ++ ".json".toList)
  let w1 := call (.GetAccountFromFile filePath password) r2.2
  match env.GetAccountFromFile filePath password with
  | .error err => emit (.loadFailed address err) w1
  | .ok acc => { w1 with currentAccount := some acc } |> emit (.loadOk acc.Address)

/-- The handler `queryCurrentAccountBalance` (menu 3). -/
def queryCurrentAccountBalance (env : Env) (w : World) : World :=
  match w.currentAccount with
  | none => emit .needAccount w
  | some acct =>
    let w1 := call (.QueryBalance acct.Address) w
    match env.QueryBalance acct.Address with
    | .error err => emit (.balanceFailed acct.Address err) w1
    | .ok amount => emit (.balance acct.Address amount) w1

/-- The handler `deployCopyrightContract` (menu 4). -/
def deployCopyrightContract (env : Env) (w : World) : World :=
  match w.currentAccount with
  | none => emit .needAccountForDeploy w
  | some acct =>
    let r1 := getStringInput "输入合约名称 (例如 copyright123): ".toList w
    let contractName := r1.1
    if contractName = [] then emit .emptyContractName r1.2
    else
      let r2 := getStringInput ("输入编译好的合约文件路径 (相对于 ".toList ++ contractCodeDir ++
        " 目录, 例如 digital_copyright_service): ".toList) r1.2
      let fullCodePath := env.Join contractCodeDir r2.1
      match env.ReadFile fullCodePath with
      | .error err => emit (.readCodeFailed fullCodePath err) r2.2
      | .ok codeBytes =>
        let initArgsMap : ArgMap := [("creator".toList, acct.Address)]
        let w1 := call (.DeployNativeGoContract acct contractName codeBytes initArgsMap) r2.2
        match env.DeployNativeGoContract acct contractName codeBytes initArgsMap with
        | .error err => emit (.deployFailed contractName err) w1
        | .ok txid => w1 |> emit (.deploySent contractName txid) |> emit .deployCheckLater

/-- The loop of `invokeContract` that copies the byte-valued map into a
string-valued one, `argsStringMap[k] = string(v)`. -/
def toStringMap (argsByteMap : ArgMap) : ArgMap :=
  argsByteMap.map (fun kv => (kv.1, kv.2))

/-- The helper `invokeContract`. -/
def invokeContract {F : Type} (codec : FloatCodec F) (env : Env) (methodName : Text)
    (argsByteMap : ArgMap) (isQuery : Bool) (w : World) : World :=
  match w.currentAccount with
  | none => emit .needAccount w
  | some acct =>
    let r1 := getStringInput "输入要调用的合约名称: ".toList w
    let contractName := r1.1
    if contractName = [] then emit .emptyContractName r1.2
    else if isQuery then
      let argsStringMap := toStringMap argsByteMap
      let w1 := call (.QueryNativeContract acct contractName methodName argsStringMap) r1.2
      match env.QueryNativeContract acct contractName methodName argsStringMap with
      | .error err => emit (.queryFailed contractName methodName err) w1
      | .ok preExeRes =>
        if preExeRes.ContractResponse.Status ≥ 400 then
          let w2 := emit (.contractFailed preExeRes.ContractResponse.Message) w1
          if preExeRes.ContractResponse.Body.length > 0 then
            emit (.contractBody preExeRes.ContractResponse.Body) w2
          else w2
        else
          let w2 := w1 |> emit (.querySuccess contractName methodName)
            |> emit (.gasUsed preExeRes.GasUsed)
            |> emit (.rawResult preExeRes.ContractResponse.Body)
          match unmarshalMap codec preExeRes.ContractResponse.Body with
          | some prettyJSON => emit (.formatted (marshalIndent codec prettyJSON)) w2
          | none => w2
    else
      let argsStringMap := toStringMap argsByteMap
      let w1 := call (.InvokeNativeContract acct contractName methodName argsStringMap) r1.2
      match env.InvokeNativeContract acct contractName methodName argsStringMap with
      | .error err => emit (.invokeFailed contractName methodName err) w1
      | .ok txid =>
        w1 |> emit (.invokeSent contractName methodName txid) |> emit .confirmLater

/-- The handler `invokeRegisterCopyright` (menu 5). -/
def invokeRegisterCopyright {F : Type} (codec : FloatCodec F) (env : Env) (w : World) : World :=
  let w0 := emit (.title "--- 注册数字版权 ---".toList) w
  let r1 := getStringInput "输入版权ID: ".toList w0
  let r2 := getStringInput "输入作品名称: ".toList r1.2
  let r3 := getStringInput "输入作者: ".toList r2.2
  let r4 := getStringInput "输入初始持有人地址: ".toList r3.2
  let r5 := getStringInput "输入作品类型: ".toList r4.2
  let r6 := getStringInput "输入作品描述: ".toList r5.2
  let args : ArgMap := [("copyright_id".toList, r1.1), ("work_name".toList, r2.1),
    ("author".toList, r3.1), ("owner_address".toList, r4.1), ("work_type".toList, r5.1),
    ("description".toList, r6.1)]
  invokeContract codec env "RegisterCopyright".toList args false r6.2

/-- The handler `invokeQueryCopyright` (menu 6). -/
def invokeQueryCopyright {F : Type} (codec : FloatCodec F) (env : Env) (w : World) : World :=
  let w0 := emit (.title "--- 查询数字版权 ---".toList) w
  let r1 := getStringInput "输入要查询的版权ID: ".toList w0
  let args : ArgMap := [("copyright_id".toList, r1.1)]
  invokeContract codec env "QueryCopyright".toList args true r1.2

/-- The handler `invokeTransferCopyright` (menu 7). -/
def invokeTransferCopyright {F : Type} (codec : FloatCodec F) (env : Env) (w : World) : World :=
  let w0 := emit (.title "--- 转移数字版权 ---".toList) w
  let r1 := getStringInput "输入要转移的版权ID: ".toList w0
  let r2 := getStringInput "输入新持有人地址: ".toList r1.2
  let args : ArgMap := [("copyright_id".toList, r1.1), ("new_owner_address".toList, r2.1)]
  invokeContract codec env "TransferCopyright".toList args false r2.2

/-- The handler `invokeUpdateCopyrightDescription` (menu 8). -/
def invokeUpdateCopyrightDescription {F : Type} (codec : FloatCodec F) (env : Env)
    (w : World) : World :=
  let w0 := emit (.title "--- 更新版权描述 ---".toList) w
  let r1 := getStringInput "输入要更新的版权ID: ".toList w0
  let r2 := getStringInput "输入新的作品描述: ".toList r1.2
  let args : ArgMap := [("copyright_id".toList, r1.1), ("new_description".toList, r2.1)]
  invokeContract codec env "UpdateCopyrightDescription".toList args false r2.2

/-- The handler `invokeDeleteCopyright` (menu 9). -/
def invokeDeleteCopyright {F : Type} (codec : FloatCodec F) (env : Env) (w : World) : World :=
  let w0 := emit (.title "--- 删除数字版权 (逻辑删除) ---".toList) w
  let r1 := getStringInput "输入要删除的版权ID: ".toList w0
  let args : ArgMap := [("copyright_id".toList, r1.1)]
  invokeContract codec env "DeleteCopyright".toList args false r1.2

/-- The handler `queryBlockByHeight` (menu 10). -/
def queryBlockByHeight (env : Env) (w : World) : World :=
  let r1 := getStringInput "输入要查询的区块高度: ".toList w
  match parseInt r1.1 with
  | .error _ => emit .invalidHeight r1.2
  | .ok height =>
    let w1 := call (.QueryBlockByHeight height) r1.2
    match env.QueryBlockByHeight height with
    | .error err => emit (.blockFailed height err) w1
    | .ok block =>
      w1 |> emit (.blockHeader height) |> emit (.blockId block.Blockid)
        |> emit (.blockPreHash block.PreHash) |> emit (.blockTxCount block.Transactions)
        |> emit (.blockTimestamp block.Timestamp)

/-- The loop of `queryTxByID` over the contract requests, from index `i`. -/
def printRequests : List (Text × Text) → Nat → World → World
  | [], _, w => w
  | req :: reqs, i, w =>
    printRequests reqs (i + 1)
      (w |> emit (.txRequest i) |> emit (.txRequestContract req.1)
        |> emit (.txRequestMethod req.2))

/-- The handler `queryTxByID` (menu 11). -/
def queryTxByID (env : Env) (w : World) : World :=
  let r1 := getStringInput "输入要查询的交易ID: ".toList w
  let txID := r1.1
  let w1 := call (.QueryTxByID txID) r1.2
  match env.QueryTxByID txID with
  | .error err => emit (.txFailed txID err) w1
  | .ok tx =>
    let w2 := w1 |> emit (.txHeader txID) |> emit (.txBlockId tx.Blockid)
      |> emit (.txInitiator tx.Initiator)
    if tx.ContractRequests.length > 0 then printRequests tx.ContractRequests 0 w2 else w2

/-- The handler `queryChainStatus` (menu 12). -/
def queryChainStatus (env : Env) (w : World) : World :=
  let w1 := call (.QueryBlockChainStatus chainName) w
  match env.QueryBlockChainStatus chainName with
  | .error err => emit (.statusFailed chainName err) w1
  | .ok status =>
    w1 |> emit (.statusHeader chainName) |> emit (.statusHeight status.TrunkHeight)
      |> emit (.statusTip status.TipBlockid)

/-- The dispatcher `handleChoice`; choice 0 prints and calls `os.Exit(0)`. -/
def handleChoice {F : Type} (codec : FloatCodec F) (env : Env) (choice : Int) (w : World) :
    World :=
  if choice = 1 then createAndSaveAccount env w
  else if choice = 2 then loadAccountFromFile env w
  else if choice = 3 then queryCurrentAccountBalance env w
  else if choice = 4 then deployCopyrightContract env w
  else if choice = 5 then invokeRegisterCopyright codec env w
  else if choice = 6 then invokeQueryCopyright codec env w
  else if choice = 7 then invokeTransferCopyright codec env w
  else if choice = 8 then invokeUpdateCopyrightDescription codec env w
  else if choice = 9 then invokeDeleteCopyright codec env w
  else if choice = 10 then queryBlockByHeight env w
  else if choice = 11 then queryTxByID env w
  else if choice = 12 then queryChainStatus env w
  else if choice = 0 then { emit .exiting w with exited := some 0 }
  else emit .invalidOption w

/-! ## Definitions used to state the properties -/

/-- The session state and the library calls of `w1` are those of `w`. -/
def Quiet (w w1 : World) : Prop :=
  w1.sdkClient = w.sdkClient ∧ w1.currentAccount = w.currentAccount ∧ w1.calls = w.calls

/-- World `w1` is `w` after `k` more lines were read and nothing else but the
output changed. -/
def At (w w1 : World) (k : Nat) : Prop := Quiet w w1 ∧ w1.stdin = afterLines w.stdin k

/-- The messages printed, as one text. -/
def printedText (ms : List Msg) : Text := (ms.map Msg.text).flatten

/-- The number a string of decimal digits stands for. -/
def digitsValue (ds : Text) : Nat := ds.foldl (fun n c => n * 10 + (c.toNat - 48)) 0

/-- The text `s` is the decimal integer `n`: an optional sign `+` or `-`
followed by at least one digit `0`-`9` and nothing else. -/
def DecimalInt (s : Text) (n : Int) : Prop :=
  ∃ ds : Text, ds ≠ [] ∧ (∀ c ∈ ds, isDigit c = true) ∧
    ((s = ds ∨ s = '+' :: ds) ∧ n = (digitsValue ds : Int) ∨
      s = '-' :: ds ∧ n = - (digitsValue ds : Int))

/-- Nothing at the front of `rest` can continue a number literal. -/
def NumEnd (rest : Text) : Prop :=
  ∀ c r, rest = c :: r → isDigit c = false ∧ c ≠ '.' ∧ c ≠ 'e' ∧ c ≠ 'E'

/-- The text starts with a character that is not white space and closes
neither an array nor an object. -/
def Opens (s : Text) : Prop :=
  ∃ c r, s = c :: r ∧ isWS c = false ∧ c ≠ ']' ∧ c ≠ '}'

mutual
/-- Recursion depth that `parseValue` needs for the text of a value. -/
def need {N : Type} : JValue N → Nat
  | .array xs => 1 + needElems xs
  | .object ms => 1 + needMembers ms
  | _ => 1
def needElems {N : Type} : List (JValue N) → Nat
  | [] => 0
  | x :: xs => 1 + max (need x) (needElems xs)
def needMembers {N : Type} : List (Text × JValue N) → Nat
  | [] => 0
  | (_, v) :: ms => 1 + max (need v) (needMembers ms)
end

mutual
/-- The largest number of arrays and objects open at the same time in a
value. -/
def nesting {N : Type} : JValue N → Nat
  | .array xs => 1 + nestingElems xs
  | .object ms => 1 + nestingMembers ms
  | _ => 0
def nestingElems {N : Type} : List (JValue N) → Nat
  | [] => 0
  | x :: xs => max (nesting x) (nestingElems xs)
def nestingMembers {N : Type} : List (Text × JValue N) → Nat
  | [] => 0
  | (_, v) :: ms => max (nesting v) (nestingMembers ms)
end

mutual
/-- The number literals of a parsed document. -/
def numbersOf : JValue Text → List Text
  | .number lit => [lit]
  | .array xs => numbersOfElems xs
  | .object ms => numbersOfMembers ms
  | _ => []
def numbersOfElems : List (JValue Text) → List Text
  | [] => []
  | x :: xs => numbersOf x ++ numbersOfElems xs
def numbersOfMembers : List (Text × JValue Text) → List Text
  | [] => []
  | (_, v) :: ms => numbersOf v ++ numbersOfMembers ms
end

/-- The keys of a map's entries are strictly increasing. -/
def SortedKeys {N : Type} (ms : List (Text × JValue N)) : Prop :=
  ms.Pairwise (fun a b => keyLt a.1 b.1 = true)

mutual
/-- Every object inside the value has strictly increasing keys: the value is
a Go value as the decoder builds it. -/
def Normal {N : Type} : JValue N → Prop
  | .array xs => NormalElems xs
  | .object ms => SortedKeys ms ∧ NormalMembers ms
  | _ => True
def NormalElems {N : Type} : List (JValue N) → Prop
  | [] => True
  | x :: xs => Normal x ∧ NormalElems xs
def NormalMembers {N : Type} : List (Text × JValue N) → Prop
  | [] => True
  | (_, v) :: ms => Normal v ∧ NormalMembers ms
end

/-! ## A sample environment, for concrete runs -/

def sampleAccount : Account :=
  { Address := "addr1".toList, Mnemonic := "word".toList, PrivateKey := "sk".toList,
    PublicKey := "pk".toList }

/-- An environment in which account creation and loading fail, the only
readable file is `contract/code`, and a contract query returns `queryResult`. -/
def sampleEnv (queryResult : Except Text PreExeRes) : Env where
  CreateAndSaveAccountToFile := fun _ _ _ _ => .error "disk full".toList
  GetAccountFromFile := fun _ _ => .error "no such file".toList
  QueryBalance := fun _ => .ok 0
  DeployNativeGoContract := fun _ _ _ _ => .ok "tx1".toList
  QueryNativeContract := fun _ _ _ _ => queryResult
  InvokeNativeContract := fun _ _ _ _ => .ok "tx2".toList
  QueryBlockByHeight := fun h => .ok ⟨"b1".toList, [], 0, h⟩
  QueryTxByID := fun _ => .error "not found".toList
  QueryBlockChainStatus := fun _ => .ok ⟨0, []⟩
  ReadFile := fun p =>
    if p = "contract/code".toList then .ok "binary".toList else .error "no such file".toList
  Join := fun a b => a.drop 2 ++ '/' :: b

/-- A fresh session: nothing printed, no call made, the given account and
unread input. -/
def sampleWorld (acct : Option Account) (input : Text) : World :=
  { sdkClient := { node := nodeAddr }, currentAccount := acct, stdin := input, stdout := [],
    calls := [], exited := none }

/-- A response of a contract query. -/
def sampleResponse (status : Int) (body : Text) : Except Text PreExeRes :=
  .ok ⟨⟨status, "msg".toList, body⟩, 7⟩

/-- A codec that keeps every number literal as it is. -/
def literalCodec : FloatCodec { l : Text // isNumberLiteral l = true } where
  parseFloat := fun l => if h : isNumberLiteral l = true then some ⟨l, h⟩ else none
  formatFloat := fun f => f.1

/-! ## Integer parsing -/

theorem foldl_digits_ge (cs : Text) (a : Nat) :
    a ≤ cs.foldl (fun n c => n * 10 + (c.toNat - 48)) a := by
  induction cs generalizing a with
  | nil => exact Nat.le_refl _
  | cons c cs ih =>
    simp only [List.foldl_cons]
    exact Nat.le_trans (by omega) (ih _)

theorem parseUintLoop_ok_iff (s : Text) (n m : Nat) (hn : n < 2 ^ 64) :
    parseUintLoop s n = .ok m ↔
      (∀ c ∈ s, isDigit c = true) ∧ m = s.foldl (fun n c => n * 10 + (c.toNat - 48)) n ∧
        m < 2 ^ 64 := by
  induction s generalizing n with
  | nil =>
    simp only [parseUintLoop, Except.ok.injEq, List.not_mem_nil, false_implies, implies_true,
      List.foldl_nil, true_and]
    constructor
    · rintro rfl; exact ⟨rfl, hn⟩
    · rintro ⟨rfl, _⟩; rfl
  | cons c cs ih =>
    unfold parseUintLoop
    by_cases hd : 48 ≤ c.toNat ∧ c.toNat ≤ 57
    · have hdig : isDigit c = true := by simp [isDigit, hd.1, hd.2]
      rw [if_pos hd]
      have hge := foldl_digits_ge cs (n * 10 + (c.toNat - 48))
      simp only [List.foldl_cons, List.mem_cons, forall_eq_or_imp, hdig, true_and]
      by_cases h1 : n ≥ maxUint64 / 10 + 1
      · rw [if_pos h1]
        simp only [maxUint64] at h1
        constructor
        · intro h; cases h
        · rintro ⟨_, rfl, h3⟩; omega
      · rw [if_neg h1]
        simp only [maxUint64] at h1
        by_cases h2 : (n * 10 + (c.toNat - 48)) % 2 ^ 64 < n * 10 ∨
            (n * 10 + (c.toNat - 48)) % 2 ^ 64 > maxUint64
        · simp only [h2, ↓reduceIte]
          simp only [maxUint64] at h2
          constructor
          · intro h; cases h
          · rintro ⟨_, rfl, h3⟩; omega
        · simp only [h2, ↓reduceIte]
          simp only [maxUint64] at h2
          have h3 : (n * 10 + (c.toNat - 48)) % 2 ^ 64 = n * 10 + (c.toNat - 48) := by omega
          rw [h3]
          exact ih _ (by omega)
    · rw [if_neg hd]
      have hdig : isDigit c = false := by
        simp only [isDigit, Bool.and_eq_false_imp, decide_eq_true_eq, decide_eq_false_iff_not]
        intro h; omega
      constructor
      · intro h; cases h
      · rintro ⟨h, _⟩
        have := h c (List.mem_cons_self _ _)
        rw [hdig] at this; cases this

theorem parseUint_ok_iff (s : Text) (m : Nat) :
    parseUint s = .ok m ↔
      s ≠ [] ∧ (∀ c ∈ s, isDigit c = true) ∧ m = digitsValue s ∧ m < 2 ^ 64 := by
  unfold parseUint
  by_cases hs : s = []
  · rw [if_pos hs]
    constructor
    · intro h; cases h
    · rintro ⟨h, _⟩; exact absurd hs h
  · rw [if_neg hs, parseUintLoop_ok_iff s 0 m (by norm_num)]
    simp only [ne_eq, hs, not_false_eq_true, true_and, digitsValue]

theorem parseUint_error_iff (s : Text) :
    (∃ e, parseUint s = .error e) ↔
      ¬ (s ≠ [] ∧ (∀ c ∈ s, isDigit c = true) ∧ digitsValue s < 2 ^ 64) := by
  constructor
  · rintro ⟨e, he⟩ ⟨h1, h2, h3⟩
    have := (parseUint_ok_iff s (digitsValue s)).2 ⟨h1, h2, rfl, h3⟩
    rw [he] at this; cases this
  · intro h
    cases hp : parseUint s with
    | error e => exact ⟨e, rfl⟩
    | ok m =>
      have := (parseUint_ok_iff s m).1 hp
      exact absurd ⟨this.1, this.2.1, this.2.2.1 ▸ this.2.2.2⟩ h

theorem isDigit_minus : isDigit '-' = false := by decide

theorem isDigit_plus : isDigit '+' = false := by decide

theorem parseUint_cases (s : Text) :
    (∃ m, parseUint s = .ok m ∧ s ≠ [] ∧ (∀ c ∈ s, isDigit c = true) ∧ m = digitsValue s ∧
      m < 2 ^ 64) ∨
    (∃ e, parseUint s = .error e ∧
      ¬ (s ≠ [] ∧ (∀ c ∈ s, isDigit c = true) ∧ digitsValue s < 2 ^ 64)) := by
  cases hp : parseUint s with
  | error e => exact Or.inr ⟨e, rfl, (parseUint_error_iff s).1 ⟨e, hp⟩⟩
  | ok m =>
    have := (parseUint_ok_iff s m).1 hp
    exact Or.inl ⟨m, rfl, this⟩

theorem decimalInt_minus (cs : Text) (n : Int) :
    DecimalInt ('-' :: cs) n ↔
      cs ≠ [] ∧ (∀ c ∈ cs, isDigit c = true) ∧ n = - (digitsValue cs : Int) := by
  constructor
  · rintro ⟨ds, h1, h2, (⟨h | h, _⟩ | ⟨h, hn⟩)⟩
    · have := h2 '-' (by rw [← h]; exact List.mem_cons_self _ _)
      rw [isDigit_minus] at this; cases this
    · cases h
    · cases h; exact ⟨h1, h2, hn⟩
  · rintro ⟨h1, h2, hn⟩
    exact ⟨cs, h1, h2, Or.inr ⟨rfl, hn⟩⟩

theorem decimalInt_plus (cs : Text) (n : Int) :
    DecimalInt ('+' :: cs) n ↔
      cs ≠ [] ∧ (∀ c ∈ cs, isDigit c = true) ∧ n = (digitsValue cs : Int) := by
  constructor
  · rintro ⟨ds, h1, h2, (⟨h | h, hn⟩ | ⟨h, _⟩)⟩
    · have := h2 '+' (by rw [← h]; exact List.mem_cons_self _ _)
      rw [isDigit_plus] at this; cases this
    · cases h; exact ⟨h1, h2, hn⟩
    · cases h
  · rintro ⟨h1, h2, hn⟩
    exact ⟨cs, h1, h2, Or.inl ⟨Or.inr rfl, hn⟩⟩

theorem decimalInt_other (c : Char) (cs : Text) (n : Int) (hm : c ≠ '-') (hp : c ≠ '+') :
    DecimalInt (c :: cs) n ↔
      (∀ a ∈ c :: cs, isDigit a = true) ∧ n = (digitsValue (c :: cs) : Int) := by
  constructor
  · rintro ⟨ds, _, h2, (⟨h | h, hn⟩ | ⟨h, _⟩)⟩
    · subst h; exact ⟨h2, hn⟩
    · simp only [List.cons.injEq] at h
      exact absurd h.1 hp
    · simp only [List.cons.injEq] at h
      exact absurd h.1 hm
  · rintro ⟨h2, hn⟩
    exact ⟨c :: cs, List.cons_ne_nil _ _, h2, Or.inl ⟨Or.inl rfl, hn⟩⟩

theorem decimalInt_nil (n : Int) : ¬ DecimalInt [] n := by
  rintro ⟨ds, h1, _, (⟨h | h, _⟩ | ⟨h, _⟩)⟩
  · exact absurd h.symm h1
  · cases h
  · cases h

/-- Go `strconv.ParseInt(s, 10, 64)` succeeds with `n` exactly when `s` is
the decimal integer `n` and `n` fits in 64 bits. -/
theorem parseInt_ok_iff (s : Text) (n : Int) :
    parseInt s = .ok n ↔ DecimalInt s n ∧ -(2 ^ 63) ≤ n ∧ n < 2 ^ 63 := by
  cases s with
  | nil =>
    constructor
    · intro h; cases h
    · rintro ⟨h, _⟩; exact absurd h (decimalInt_nil n)
  | cons c cs =>
    by_cases hm : c = '-'
    · subst hm
      rw [decimalInt_minus]
      simp only [parseInt, or_true, ↓reduceIte, not_true_eq_false, false_and, true_and]
      rcases parseUint_cases cs with ⟨m, hp, h1, h2, h3, h4⟩ | ⟨e, hp, hneg⟩
      · rw [hp]
        simp only
        by_cases hr : m > 2 ^ 63
        · rw [if_pos hr]
          constructor
          · intro h; cases h
          · rintro ⟨⟨_, _, hn⟩, h5, h6⟩; omega
        · rw [if_neg hr]
          simp only [Except.ok.injEq]
          constructor
          · rintro rfl
            exact ⟨⟨h1, h2, by rw [h3]⟩, by omega, by omega⟩
          · rintro ⟨⟨_, _, hn⟩, _, _⟩
            rw [hn, h3]
      · rw [hp]
        constructor
        · intro h; cases h
        · rintro ⟨⟨h1, h2, hn⟩, h5, h6⟩
          exact absurd ⟨h1, h2, by omega⟩ hneg
    · by_cases hpl : c = '+'
      · subst hpl
        rw [decimalInt_plus]
        simp only [parseInt, true_or, ↓reduceIte, hm, not_false_eq_true, true_and, false_and]
        rcases parseUint_cases cs with ⟨m, hp, h1, h2, h3, h4⟩ | ⟨e, hp, hneg⟩
        · rw [hp]
          simp only
          by_cases hr : m ≥ 2 ^ 63
          · rw [if_pos hr]
            constructor
            · intro h; cases h
            · rintro ⟨⟨_, _, hn⟩, h5, h6⟩; omega
          · rw [if_neg hr]
            simp only [Except.ok.injEq]
            constructor
            · rintro rfl
              exact ⟨⟨h1, h2, by rw [h3]⟩, by omega, by omega⟩
            · rintro ⟨⟨_, _, hn⟩, _, _⟩
              rw [hn, h3]
        · rw [hp]
          constructor
          · intro h; cases h
          · rintro ⟨⟨h1, h2, hn⟩, h5, h6⟩
            exact absurd ⟨h1, h2, by omega⟩ hneg
      · rw [decimalInt_other c cs n hm hpl]
        simp only [parseInt, hm, hpl, or_self, ↓reduceIte, not_false_eq_true, true_and,
          false_and]
        rcases parseUint_cases (c :: cs) with ⟨m, hp, h1, h2, h3, h4⟩ | ⟨e, hp, hneg⟩
        · rw [hp]
          simp only
          by_cases hr : m ≥ 2 ^ 63
          · rw [if_pos hr]
            constructor
            · intro h; cases h
            · rintro ⟨⟨_, hn⟩, h5, h6⟩; omega
          · rw [if_neg hr]
            simp only [Except.ok.injEq]
            constructor
            · rintro rfl
              exact ⟨⟨h2, by rw [h3]⟩, by omega, by omega⟩
            · rintro ⟨⟨_, hn⟩, _, _⟩
              rw [hn, h3]
        · rw [hp]
          constructor
          · intro h; cases h
          · rintro ⟨⟨h2, hn⟩, h5, h6⟩
            exact absurd ⟨List.cons_ne_nil _ _, h2, by omega⟩ hneg

/-! ## The session across prompts and `invokeContract` -/

theorem Quiet.same (w : World) : Quiet w w := ⟨rfl, rfl, rfl⟩

theorem Quiet.printed {w w1 : World} (m : Msg) (h : Quiet w w1) : Quiet w (emit m w1) := h

theorem Quiet.input {w w1 : World} (p : Text) (h : Quiet w w1) :
    Quiet w (getStringInput p w1).2 := h

theorem invokeContract_no_account {F : Type} (codec : FloatCodec F) (env : Env) (m : Text)
    (args : ArgMap) (q : Bool) (w : World) (h : w.currentAccount = none) :
    invokeContract codec env m args q w = emit .needAccount w := by
  unfold invokeContract
  rw [h]

theorem Quiet.refused {F : Type} (codec : FloatCodec F) (env : Env) (m : Text)
    (args : ArgMap) (q : Bool) {w w1 : World} (h : Quiet w w1) (hn : w.currentAccount = none) :
    Quiet w (invokeContract codec env m args q w1) := by
  rw [invokeContract_no_account codec env m args q w1 (h.2.1.trans hn)]
  exact h.printed _

theorem afterLines_succ (s : Text) (i : Nat) :
    afterLines s (i + 1) = (readString (afterLines s i)).2 := by
  induction i generalizing s with
  | zero => rfl
  | succ i ih => exact ih (readString s).2

theorem inputLine_eq (s : Text) (i : Nat) :
    inputLine s i = trimSpace (readString (afterLines s i)).1 := by
  induction i generalizing s with
  | zero => rfl
  | succ i ih => exact ih (readString s).2

theorem At.start (w : World) : At w w 0 := ⟨Quiet.same w, rfl⟩

theorem At.shown {w w1 : World} {k : Nat} (m : Msg) (h : At w w1 k) : At w (emit m w1) k := h

theorem At.next {w w1 : World} {k : Nat} (p : Text) (h : At w w1 k) :
    At w (getStringInput p w1).2 (k + 1) := by
  refine ⟨h.1, ?_⟩
  show (readString w1.stdin).2 = _
  rw [afterLines_succ, h.2]

theorem At.line {w w1 : World} {k : Nat} (p : Text) (h : At w w1 k) :
    (getStringInput p w1).1 = inputLine w.stdin k := by
  show trimSpace (readString w1.stdin).1 = _
  rw [inputLine_eq, h.2]

/-- With an account loaded and a contract name entered, `invokeContract` makes
exactly one library call, a query or an invoke as `isQuery` says, and keeps the
session. -/
theorem invokeContract_calls {F : Type} (codec : FloatCodec F) (env : Env) (m : Text)
    (args : ArgMap) (q : Bool) (w w1 : World) (k : Nat) (acct : Account) (hw : At w w1 k)
    (hacct : w.currentAccount = some acct) (hname : inputLine w.stdin k ≠ []) :
    (invokeContract codec env m args q w1).calls =
      w.calls ++ [if q = true then
        LibCall.QueryNativeContract acct (inputLine w.stdin k) m (toStringMap args)
        else LibCall.InvokeNativeContract acct (inputLine w.stdin k) m (toStringMap args)] ∧
    (invokeContract codec env m args q w1).currentAccount = w.currentAccount ∧
    (invokeContract codec env m args q w1).sdkClient = w.sdkClient := by
  have hl := hw.line "输入要调用的合约名称: ".toList
  have hname1 : ¬ (getStringInput "输入要调用的合约名称: ".toList w1).1 = [] := by
    rw [hl]; exact hname
  have hacct1 : w1.currentAccount = some acct := hw.1.2.1.trans hacct
  have hc : w1.calls = w.calls := hw.1.2.2
  have hs : w1.sdkClient = w.sdkClient := hw.1.1
  dsimp only [invokeContract]
  rw [hacct1]
  dsimp only
  rw [if_neg hname1, hl, hacct, ← hc, ← hs]
  cases q with
  | true =>
    rw [if_pos rfl, if_pos rfl]
    split
    · exact ⟨rfl, hacct1, rfl⟩
    · split
      · split <;> exact ⟨rfl, hacct1, rfl⟩
      · split <;> exact ⟨rfl, hacct1, rfl⟩
  | false =>
    rw [if_neg (by decide), if_neg (by decide)]
    split <;> exact ⟨rfl, hacct1, rfl⟩

theorem toStringMap_eq (args : ArgMap) : toStringMap args = args := by
  unfold toStringMap
  induction args with
  | nil => rfl
  | cons a as ih => rw [List.map_cons, ih]

theorem invokeContract_query {F : Type} (codec : FloatCodec F) (env : Env) (m : Text)
    (args : ArgMap) (w : World) (acct : Account) (res : PreExeRes)
    (hacct : w.currentAccount = some acct) (hname : inputLine w.stdin 0 ≠ [])
    (hq : env.QueryNativeContract acct (inputLine w.stdin 0) m (toStringMap args) = .ok res) :
    invokeContract codec env m args true w =
      if res.ContractResponse.Status ≥ 400 then
        if res.ContractResponse.Body.length > 0 then
          emit (.contractBody res.ContractResponse.Body)
            (emit (.contractFailed res.ContractResponse.Message)
              (call (.QueryNativeContract acct (inputLine w.stdin 0) m (toStringMap args))
                (getStringInput "输入要调用的合约名称: ".toList w).2))
        else
          emit (.contractFailed res.ContractResponse.Message)
            (call (.QueryNativeContract acct (inputLine w.stdin 0) m (toStringMap args))
              (getStringInput "输入要调用的合约名称: ".toList w).2)
      else
        match unmarshalMap codec res.ContractResponse.Body with
        | some prettyJSON =>
          emit (.formatted (marshalIndent codec prettyJSON))
            (emit (.rawResult res.ContractResponse.Body) (emit (.gasUsed res.GasUsed)
              (emit (.querySuccess (inputLine w.stdin 0) m)
                (call (.QueryNativeContract acct (inputLine w.stdin 0) m (toStringMap args))
                  (getStringInput "输入要调用的合约名称: ".toList w).2))))
        | none =>
          emit (.rawResult res.ContractResponse.Body) (emit (.gasUsed res.GasUsed)
            (emit (.querySuccess (inputLine w.stdin 0) m)
              (call (.QueryNativeContract acct (inputLine w.stdin 0) m (toStringMap args))
                (getStringInput "输入要调用的合约名称: ".toList w).2))) := by
  have hname1 : ¬ (getStringInput "输入要调用的合约名称: ".toList w).1 = [] := hname
  have hq1 : env.QueryNativeContract acct (getStringInput "输入要调用的合约名称: ".toList w).1 m
      (toStringMap args) = .ok res := hq
  dsimp only [invokeContract]
  rw [hacct]
  dsimp only
  rw [if_neg hname1, if_pos rfl, hq1]
  rfl

theorem createAndSaveAccount_calls (env : Env) (w : World) :
    (createAndSaveAccount env w).calls = w.calls ++
      [LibCall.CreateAndSaveAccountToFile keysDir (inputLine w.stdin 2)
        (uint8 (strengthOf (inputLine w.stdin 0))) (languageOf (inputLine w.stdin 1))] := by
  dsimp only [createAndSaveAccount]
  split <;> rfl

theorem createAndSaveAccount_error (env : Env) (w : World) (err : Text)
    (h : env.CreateAndSaveAccountToFile keysDir (inputLine w.stdin 2)
      (uint8 (strengthOf (inputLine w.stdin 0))) (languageOf (inputLine w.stdin 1)) = .error err) :
    (createAndSaveAccount env w).currentAccount = w.currentAccount ∧
    (createAndSaveAccount env w).sdkClient = w.sdkClient := by
  dsimp only [createAndSaveAccount]
  split
  · exact ⟨rfl, rfl⟩
  · next a ha =>
    have : Except.ok a = (Except.error err : Except Text Account) := ha.symm.trans h
    cases this

theorem loadAccountFromFile_calls (env : Env) (w : World) :
    (loadAccountFromFile env w).calls = w.calls ++
      [LibCall.GetAccountFromFile (env.Join keysDir (inputLine w.stdin 0 ++ ".json".toList))
        (inputLine w.stdin 1)] := by
  dsimp only [loadAccountFromFile]
  split <;> rfl

theorem loadAccountFromFile_error (env : Env) (w : World) (err : Text)
    (h : env.GetAccountFromFile (env.Join keysDir (inputLine w.stdin 0 ++ ".json".toList))
        (inputLine w.stdin 1) = .error err) :
    (loadAccountFromFile env w).currentAccount = w.currentAccount ∧
    (loadAccountFromFile env w).sdkClient = w.sdkClient := by
  dsimp only [loadAccountFromFile]
  split
  · exact ⟨rfl, rfl⟩
  · next a ha =>
    have : Except.ok a = (Except.error err : Except Text Account) := ha.symm.trans h
    cases this


/-! ## Handlers that need the current account -/

/-- C1: every handler that needs the current account
(`queryCurrentAccountBalance`, `deployCopyrightContract`, the five copyright
wrappers, and `invokeContract` with any method, arguments and mode), run in a
session whose current account is nil, on any unread input, makes no library
call and keeps the client handle and the current account. -/
theorem no_account_no_call_no_change {F : Type} (codec : FloatCodec F) (env : Env) (w : World)
    (h : w.currentAccount = none) :
    (∀ handler ∈ [queryCurrentAccountBalance env, deployCopyrightContract env,
        invokeRegisterCopyright codec env, invokeQueryCopyright codec env,
        invokeTransferCopyright codec env, invokeUpdateCopyrightDescription codec env,
        invokeDeleteCopyright codec env],
      (handler w).calls = w.calls ∧ (handler w).sdkClient = w.sdkClient ∧
      (handler w).currentAccount = w.currentAccount) ∧
    (∀ (methodName : Text) (args : ArgMap) (isQuery : Bool),
      (invokeContract codec env methodName args isQuery w).calls = w.calls ∧
      (invokeContract codec env methodName args isQuery w).sdkClient = w.sdkClient ∧
      (invokeContract codec env methodName args isQuery w).currentAccount = w.currentAccount ∧
      (invokeContract codec env methodName args isQuery w).stdin = w.stdin) := by
  have key : ∀ handler : World → World, Quiet w (handler w) →
      (handler w).calls = w.calls ∧ (handler w).sdkClient = w.sdkClient ∧
      (handler w).currentAccount = w.currentAccount := fun _ q => ⟨q.2.2, q.1, q.2.1⟩
  refine ⟨?_, ?_⟩
  · intro handler hmem
    simp only [List.mem_cons, List.mem_singleton, List.not_mem_nil, or_false] at hmem
    apply key
    rcases hmem with rfl | rfl | rfl | rfl | rfl | rfl | rfl
    · unfold queryCurrentAccountBalance
      rw [h]
      exact (Quiet.same w).printed _
    · unfold deployCopyrightContract
      rw [h]
      exact (Quiet.same w).printed _
    · exact Quiet.refused codec env _ _ _
        ((((((((Quiet.same w).printed _).input _).input _).input _).input _).input _).input _) h
    · exact Quiet.refused codec env _ _ _ (((Quiet.same w).printed _).input _) h
    · exact Quiet.refused codec env _ _ _ ((((Quiet.same w).printed _).input _).input _) h
    · exact Quiet.refused codec env _ _ _ ((((Quiet.same w).printed _).input _).input _) h
    · exact Quiet.refused codec env _ _ _ (((Quiet.same w).printed _).input _) h
  · intro m a q
    rw [invokeContract_no_account codec env m a q w h]
    exact ⟨rfl, rfl, rfl, rfl⟩

/-- C1 at a concrete run: registering a copyright with no account loaded makes
no call and leaves the account nil. -/
theorem no_account_no_call_no_change_witness :
    (invokeRegisterCopyright literalCodec (sampleEnv (sampleResponse 200 []))
      (sampleWorld none "c001\nW\nA\naddr\ntext\nd\ncopyright1\n".toList)).calls = [] ∧
    (invokeRegisterCopyright literalCodec (sampleEnv (sampleResponse 200 []))
      (sampleWorld none "c001\nW\nA\naddr\ntext\nd\ncopyright1\n".toList)).currentAccount =
      none :=
  ⟨((no_account_no_call_no_change literalCodec (sampleEnv (sampleResponse 200 []))
      (sampleWorld none "c001\nW\nA\naddr\ntext\nd\ncopyright1\n".toList) rfl).1 _
      (by simp only [List.mem_cons, true_or, or_true])).1,
   ((no_account_no_call_no_change literalCodec (sampleEnv (sampleResponse 200 []))
      (sampleWorld none "c001\nW\nA\naddr\ntext\nd\ncopyright1\n".toList) rfl).1 _
      (by simp only [List.mem_cons, true_or, or_true])).2.2⟩

/-- C2: if the create call made by `createAndSaveAccount`, or the load call
made by `loadAccountFromFile`, returns an error, the handler ends with the
current account (and the client handle) exactly as before; a loaded account is
neither replaced nor cleared. -/
theorem failed_create_or_load_keeps_account (env : Env) (w : World) :
    (∀ dir password strength language err,
      (createAndSaveAccount env w).calls =
        w.calls ++ [LibCall.CreateAndSaveAccountToFile dir password strength language] →
      env.CreateAndSaveAccountToFile dir password strength language = .error err →
      (createAndSaveAccount env w).currentAccount = w.currentAccount ∧
      (createAndSaveAccount env w).sdkClient = w.sdkClient) ∧
    (∀ path password err,
      (loadAccountFromFile env w).calls = w.calls ++ [LibCall.GetAccountFromFile path password] →
      env.GetAccountFromFile path password = .error err →
      (loadAccountFromFile env w).currentAccount = w.currentAccount ∧
      (loadAccountFromFile env w).sdkClient = w.sdkClient) := by
  constructor
  · intro dir password strength language err hc he
    rw [createAndSaveAccount_calls] at hc
    have h1 := List.append_cancel_left hc
    simp only [List.cons.injEq, LibCall.CreateAndSaveAccountToFile.injEq, and_true] at h1
    obtain ⟨rfl, rfl, rfl, rfl⟩ := h1
    exact createAndSaveAccount_error env w err he
  · intro path password err hc he
    rw [loadAccountFromFile_calls] at hc
    have h1 := List.append_cancel_left hc
    simp only [List.cons.injEq, LibCall.GetAccountFromFile.injEq, and_true] at h1
    obtain ⟨rfl, rfl⟩ := h1
    exact loadAccountFromFile_error env w err he

/-- C2 at a concrete run: with an account loaded, a failed create and a failed
load both leave that account current. -/
theorem failed_create_or_load_keeps_account_witness :
    (createAndSaveAccount (sampleEnv (sampleResponse 200 []))
      (sampleWorld (some sampleAccount) "2\n2\n\n".toList)).currentAccount = some sampleAccount ∧
    (loadAccountFromFile (sampleEnv (sampleResponse 200 []))
      (sampleWorld (some sampleAccount) "abc\n\n".toList)).currentAccount = some sampleAccount :=
  ⟨((failed_create_or_load_keeps_account (sampleEnv (sampleResponse 200 []))
      (sampleWorld (some sampleAccount) "2\n2\n\n".toList)).1 "./keys".toList [] 2 2
      "disk full".toList (by rfl) rfl).1,
   ((failed_create_or_load_keeps_account (sampleEnv (sampleResponse 200 []))
      (sampleWorld (some sampleAccount) "abc\n\n".toList)).2 "keys/abc.json".toList []
      "no such file".toList (by rfl) rfl).1⟩

theorem strengthOf_of_decimal (s : Text) (n : Int) (h : DecimalInt s n) (h1 : 1 ≤ n)
    (h3 : n ≤ 3) : strengthOf s = n := by
  have hp : parseInt s = .ok n := (parseInt_ok_iff s n).2 ⟨h, by omega, by omega⟩
  unfold strengthOf atoi
  rw [hp]
  have : ¬ ((none : Option NumError) ≠ none ∨ n < 1 ∨ n > 3) := by
    simp only [ne_eq, not_true_eq_false, false_or, not_or, not_lt]
    omega
  exact if_neg this

theorem strengthOf_default (s : Text) (h : ¬ ∃ n, DecimalInt s n ∧ 1 ≤ n ∧ n ≤ 3) :
    strengthOf s = 2 := by
  unfold strengthOf atoi
  cases hp : parseInt s with
  | error e => exact if_pos (Or.inl (by simp))
  | ok n =>
    have hd := ((parseInt_ok_iff s n).1 hp).1
    have : n < 1 ∨ n > 3 := by
      by_contra hc
      exact h ⟨n, hd, by omega, by omega⟩
    exact if_pos (Or.inr this)

theorem strengthOf_range (s : Text) :
    strengthOf s = 1 ∨ strengthOf s = 2 ∨ strengthOf s = 3 := by
  dsimp only [strengthOf]
  split
  · exact Or.inr (Or.inl rfl)
  · next h =>
    simp only [not_or, not_lt] at h
    omega

theorem languageOf_of_decimal (s : Text) (n : Int) (h : DecimalInt s n) (h1 : n = 1 ∨ n = 2) :
    languageOf s = n := by
  have hp : parseInt s = .ok n := (parseInt_ok_iff s n).2 ⟨h, by omega, by omega⟩
  unfold languageOf atoi
  rw [hp]
  have : ¬ ((none : Option NumError) ≠ none ∨ (n ≠ 1 ∧ n ≠ 2)) := by
    simp only [ne_eq, not_true_eq_false, false_or, not_and, not_not]
    omega
  exact if_neg this

theorem languageOf_default (s : Text) (h : ¬ ∃ n, DecimalInt s n ∧ (n = 1 ∨ n = 2)) :
    languageOf s = 2 := by
  unfold languageOf atoi
  cases hp : parseInt s with
  | error e => exact if_pos (Or.inl (by simp))
  | ok n =>
    have hd := ((parseInt_ok_iff s n).1 hp).1
    have : n ≠ 1 ∧ n ≠ 2 := by
      by_contra hc
      exact h ⟨n, hd, by omega⟩
    exact if_pos (Or.inr this)

/-- C6: `createAndSaveAccount` makes one create call; its strength is `n`
when the trimmed first line is a decimal integer `n` with `1 ≤ n ≤ 3` and is 2
otherwise, its language is `m` when the trimmed second line is a decimal
integer `m` in `{1, 2}` and is 2 otherwise; the strength is always 1, 2 or 3,
so the conversion to `uint8` does not change it. -/
theorem create_passes_chosen_strength_and_language (env : Env) (w : World) :
    ∃ strength language : Int,
      (createAndSaveAccount env w).calls = w.calls ++
        [LibCall.CreateAndSaveAccountToFile keysDir (inputLine w.stdin 2) (uint8 strength)
          language] ∧
      (∀ n, DecimalInt (inputLine w.stdin 0) n → 1 ≤ n → n ≤ 3 → strength = n) ∧
      ((¬ ∃ n, DecimalInt (inputLine w.stdin 0) n ∧ 1 ≤ n ∧ n ≤ 3) → strength = 2) ∧
      (∀ m, DecimalInt (inputLine w.stdin 1) m → m = 1 ∨ m = 2 → language = m) ∧
      ((¬ ∃ m, DecimalInt (inputLine w.stdin 1) m ∧ (m = 1 ∨ m = 2)) → language = 2) ∧
      (strength = 1 ∨ strength = 2 ∨ strength = 3) ∧
      ((uint8 strength : Nat) : Int) = strength := by
  refine ⟨strengthOf (inputLine w.stdin 0), languageOf (inputLine w.stdin 1),
    createAndSaveAccount_calls env w, ?_, ?_, ?_, ?_, strengthOf_range _, ?_⟩
  · exact fun n h h1 h3 => strengthOf_of_decimal _ n h h1 h3
  · exact strengthOf_default _
  · exact fun m h h1 => languageOf_of_decimal _ m h h1
  · exact languageOf_default _
  · rcases strengthOf_range (inputLine w.stdin 0) with h | h | h <;> rw [h] <;> rfl

theorem decimalInt_small (c : Char) (hc : isDigit c = true) :
    DecimalInt [c] ((c.toNat - 48 : Nat) : Int) ∧ DecimalInt ['-', c] (-((c.toNat - 48 : Nat) : Int)) := by
  refine ⟨⟨[c], by simp, by simpa using hc, Or.inl ⟨Or.inl rfl, ?_⟩⟩,
    ⟨[c], by simp, by simpa using hc, Or.inr ⟨rfl, ?_⟩⟩⟩ <;>
  simp [digitsValue]

/-- C6 at concrete runs: the lines ` 3 ` and `1` give strength 3 and language
1; the lines `258` and `-1` give the defaults 2 and 2. -/
theorem create_passes_chosen_strength_and_language_witness :
    (createAndSaveAccount (sampleEnv (sampleResponse 200 []))
        (sampleWorld none " 3 \n1\nsecret\n".toList)).calls =
      [LibCall.CreateAndSaveAccountToFile "./keys".toList "secret".toList 3 1] ∧
    (createAndSaveAccount (sampleEnv (sampleResponse 200 []))
        (sampleWorld none "258\n-1\n\n".toList)).calls =
      [LibCall.CreateAndSaveAccountToFile "./keys".toList [] 2 2] := by
  constructor
  · obtain ⟨s, l, hc, h1, _, h3, _, _, _⟩ := create_passes_chosen_strength_and_language
      (sampleEnv (sampleResponse 200 [])) (sampleWorld none " 3 \n1\nsecret\n".toList)
    have hs : s = 3 := h1 3 (decimalInt_small '3' (by decide)).1 (by decide) (by decide)
    have hl : l = 1 := h3 1 (decimalInt_small '1' (by decide)).1 (Or.inl rfl)
    rw [hc, hs, hl]
    rfl
  · obtain ⟨s, l, hc, _, h2, _, h4, _, _⟩ := create_passes_chosen_strength_and_language
      (sampleEnv (sampleResponse 200 [])) (sampleWorld none "258\n-1\n\n".toList)
    have hs : s = 2 := by
      apply h2
      rintro ⟨n, hd, h1, h3⟩
      have hp := (parseInt_ok_iff _ n).2 ⟨hd, by omega, by omega⟩
      have hq : parseInt "258".toList = .ok 258 := by rfl
      have : n = 258 := by
        have := hp.symm.trans hq
        exact Except.ok.inj this
      omega
    have hl : l = 2 := by
      apply h4
      rintro ⟨n, hd, h1⟩
      have hp := (parseInt_ok_iff _ n).2 ⟨hd, by omega, by omega⟩
      have hq : parseInt "-1".toList = .ok (-1) := by rfl
      have : n = -1 := by
        have := hp.symm.trans hq
        exact Except.ok.inj this
      omega
    rw [hc, hs, hl]
    rfl

/-- C7: `handleChoice` runs the one branch of its choice: 0 prints the exit
line and exits with status 0, 1 to 12 run the handler of the menu entry, and
every other integer prints the invalid-option line, makes no library call,
reads no input and keeps the session. -/
theorem handleChoice_runs_one_branch {F : Type} (codec : FloatCodec F) (env : Env) (w : World) :
    (handleChoice codec env 0 w).exited = some 0 ∧
    (handleChoice codec env 0 w).stdout = w.stdout ++ [Msg.exiting] ∧
    (handleChoice codec env 0 w).calls = w.calls ∧
    handleChoice codec env 1 w = createAndSaveAccount env w ∧
    handleChoice codec env 2 w = loadAccountFromFile env w ∧
    handleChoice codec env 3 w = queryCurrentAccountBalance env w ∧
    handleChoice codec env 4 w = deployCopyrightContract env w ∧
    handleChoice codec env 5 w = invokeRegisterCopyright codec env w ∧
    handleChoice codec env 6 w = invokeQueryCopyright codec env w ∧
    handleChoice codec env 7 w = invokeTransferCopyright codec env w ∧
    handleChoice codec env 8 w = invokeUpdateCopyrightDescription codec env w ∧
    handleChoice codec env 9 w = invokeDeleteCopyright codec env w ∧
    handleChoice codec env 10 w = queryBlockByHeight env w ∧
    handleChoice codec env 11 w = queryTxByID env w ∧
    handleChoice codec env 12 w = queryChainStatus env w ∧
    ∀ choice : Int, choice < 0 ∨ choice > 12 →
      (handleChoice codec env choice w).stdout = w.stdout ++ [Msg.invalidOption] ∧
      (handleChoice codec env choice w).calls = w.calls ∧
      (handleChoice codec env choice w).stdin = w.stdin ∧
      (handleChoice codec env choice w).currentAccount = w.currentAccount ∧
      (handleChoice codec env choice w).sdkClient = w.sdkClient ∧
      (handleChoice codec env choice w).exited = w.exited := by
  refine ⟨rfl, rfl, rfl, rfl, rfl, rfl, rfl, rfl, rfl, rfl, rfl, rfl, rfl, rfl, rfl, ?_⟩
  intro choice hc
  have h : handleChoice codec env choice w = emit .invalidOption w := by
    unfold handleChoice
    rw [if_neg (by omega), if_neg (by omega), if_neg (by omega), if_neg (by omega),
      if_neg (by omega), if_neg (by omega), if_neg (by omega), if_neg (by omega),
      if_neg (by omega), if_neg (by omega), if_neg (by omega), if_neg (by omega),
      if_neg (by omega)]
  rw [h]
  exact ⟨rfl, rfl, rfl, rfl, rfl, rfl⟩

/-- C7 at concrete runs: the choices 13 and -1 print the invalid-option line
and read no input. -/
theorem handleChoice_runs_one_branch_witness :
    (handleChoice literalCodec (sampleEnv (sampleResponse 200 [])) 13
        (sampleWorld (some sampleAccount) "x\n".toList)).stdout = [Msg.invalidOption] ∧
    (handleChoice literalCodec (sampleEnv (sampleResponse 200 [])) (-1)
        (sampleWorld (some sampleAccount) "x\n".toList)).stdin = "x\n".toList :=
  ⟨((handleChoice_runs_one_branch literalCodec (sampleEnv (sampleResponse 200 []))
      (sampleWorld (some sampleAccount) "x\n".toList)).2.2.2.2.2.2.2.2.2.2.2.2.2.2.2 13
        (Or.inr (by decide))).1,
   ((handleChoice_runs_one_branch literalCodec (sampleEnv (sampleResponse 200 []))
      (sampleWorld (some sampleAccount) "x\n".toList)).2.2.2.2.2.2.2.2.2.2.2.2.2.2.2 (-1)
        (Or.inl (by decide))).2.2.1⟩

theorem queryBlockByHeight_error (env : Env) (w : World) (e : NumError)
    (h : parseInt (inputLine w.stdin 0) = .error e) :
    queryBlockByHeight env w =
      emit .invalidHeight (getStringInput "输入要查询的区块高度: ".toList w).2 := by
  have h1 : parseInt (getStringInput "输入要查询的区块高度: ".toList w).1 = .error e := h
  dsimp only [queryBlockByHeight]
  rw [h1]

theorem queryBlockByHeight_ok (env : Env) (w : World) (height : Int)
    (h : parseInt (inputLine w.stdin 0) = .ok height) :
    (queryBlockByHeight env w).calls = w.calls ++ [LibCall.QueryBlockByHeight height] := by
  have h1 : parseInt (getStringInput "输入要查询的区块高度: ".toList w).1 = .ok height := h
  dsimp only [queryBlockByHeight]
  rw [h1]
  dsimp only
  split <;> rfl

/-- C8: when the trimmed line given to `queryBlockByHeight` is not a decimal
integer within the signed 64-bit range, the handler prints the invalid-height
line and makes no library call; when it is the integer `h`, the handler makes
exactly one block-by-height call, with argument `h`. -/
theorem queryBlockByHeight_calls_iff_int64 (env : Env) (w : World) :
    ((¬ ∃ h : Int, DecimalInt (inputLine w.stdin 0) h ∧ -(2 ^ 63) ≤ h ∧ h < 2 ^ 63) →
      (queryBlockByHeight env w).calls = w.calls ∧
      (queryBlockByHeight env w).stdout =
        w.stdout ++ [Msg.prompt "输入要查询的区块高度: ".toList, Msg.invalidHeight]) ∧
    (∀ h : Int, DecimalInt (inputLine w.stdin 0) h → -(2 ^ 63) ≤ h → h < 2 ^ 63 →
      (queryBlockByHeight env w).calls = w.calls ++ [LibCall.QueryBlockByHeight h]) := by
  constructor
  · intro hno
    cases hp : parseInt (inputLine w.stdin 0) with
    | ok n => exact absurd ⟨n, (parseInt_ok_iff _ n).1 hp⟩ hno
    | error e =>
      rw [queryBlockByHeight_error env w e hp]
      exact ⟨rfl, by simp [emit, getStringInput]⟩
  · intro h hd h1 h2
    exact queryBlockByHeight_ok env w h ((parseInt_ok_iff _ h).2 ⟨hd, h1, h2⟩)

theorem not_decimal_of_error (s : Text) (e : NumError) (h : parseInt s = .error e) :
    ¬ ∃ n : Int, DecimalInt s n ∧ -(2 ^ 63) ≤ n ∧ n < 2 ^ 63 := by
  rintro ⟨n, hn⟩
  have := (parseInt_ok_iff s n).2 hn
  rw [h] at this
  cases this

/-- C8 at concrete runs: `abc`, the empty line and 2^63 make no call; ` -7`
makes the call with -7. -/
theorem queryBlockByHeight_calls_iff_int64_witness :
    (queryBlockByHeight (sampleEnv (sampleResponse 200 []))
      (sampleWorld none "abc\n".toList)).calls = [] ∧
    (queryBlockByHeight (sampleEnv (sampleResponse 200 []))
      (sampleWorld none "\n".toList)).calls = [] ∧
    (queryBlockByHeight (sampleEnv (sampleResponse 200 []))
      (sampleWorld none "9223372036854775808\n".toList)).calls = [] ∧
    (queryBlockByHeight (sampleEnv (sampleResponse 200 []))
      (sampleWorld none " -7\n".toList)).calls = [LibCall.QueryBlockByHeight (-7)] :=
  ⟨((queryBlockByHeight_calls_iff_int64 _ (sampleWorld none "abc\n".toList)).1
      (not_decimal_of_error _ .errSyntax (by rfl))).1,
   ((queryBlockByHeight_calls_iff_int64 _ (sampleWorld none "\n".toList)).1
      (not_decimal_of_error _ .errSyntax (by rfl))).1,
   ((queryBlockByHeight_calls_iff_int64 _ (sampleWorld none "9223372036854775808\n".toList)).1
      (not_decimal_of_error _ .errRange (by rfl))).1,
   (queryBlockByHeight_calls_iff_int64 _ (sampleWorld none " -7\n".toList)).2 (-7)
      (by simpa using (decimalInt_small '7' (by decide)).2) (by decide) (by decide)⟩

/-- C10: with an account loaded, `deployCopyrightContract` makes no library
call when the trimmed contract name is empty or the code file cannot be read;
otherwise it makes exactly one deploy call, with the current account, the name
entered, the contents of the file, and the map with the single entry
`creator` ↦ the account's address. -/
theorem deploy_calls_library_once_with_creator (env : Env) (w : World) (acct : Account)
    (hacct : w.currentAccount = some acct) :
    (inputLine w.stdin 0 = [] → (deployCopyrightContract env w).calls = w.calls) ∧
    (∀ err, inputLine w.stdin 0 ≠ [] →
      env.ReadFile (env.Join contractCodeDir (inputLine w.stdin 1)) = .error err →
      (deployCopyrightContract env w).calls = w.calls) ∧
    (∀ codeBytes, inputLine w.stdin 0 ≠ [] →
      env.ReadFile (env.Join contractCodeDir (inputLine w.stdin 1)) = .ok codeBytes →
      (deployCopyrightContract env w).calls = w.calls ++
        [LibCall.DeployNativeGoContract acct (inputLine w.stdin 0) codeBytes
          [("creator".toList, acct.Address)]]) := by
  have e0 := (At.start w).line "输入合约名称 (例如 copyright123): ".toList
  have e1 := ((At.start w).next "输入合约名称 (例如 copyright123): ".toList).line
    ("输入编译好的合约文件路径 (相对于 ".toList ++ contractCodeDir ++
        " 目录, 例如 digital_copyright_service): ".toList)
  refine ⟨?_, ?_, ?_⟩
  · intro hname
    dsimp only [deployCopyrightContract]
    rw [hacct]
    dsimp only
    rw [e0, if_pos hname]
    rfl
  · intro err hname hread
    dsimp only [deployCopyrightContract]
    rw [hacct]
    dsimp only
    rw [e0, if_neg hname, e1, hread]
    rfl
  · intro codeBytes hname hread
    dsimp only [deployCopyrightContract]
    rw [hacct]
    dsimp only
    rw [e0, if_neg hname, e1, hread]
    dsimp only
    split <;> rfl

/-- C10 at concrete runs: an empty name and a missing file make no call; a
readable file gives the one deploy call. -/
theorem deploy_calls_library_once_with_creator_witness :
    (deployCopyrightContract (sampleEnv (sampleResponse 200 []))
      (sampleWorld (some sampleAccount) "\ncode\n".toList)).calls = [] ∧
    (deployCopyrightContract (sampleEnv (sampleResponse 200 []))
      (sampleWorld (some sampleAccount) "c1\nmissing\n".toList)).calls = [] ∧
    (deployCopyrightContract (sampleEnv (sampleResponse 200 []))
      (sampleWorld (some sampleAccount) "c1\ncode\n".toList)).calls =
      [LibCall.DeployNativeGoContract sampleAccount "c1".toList "binary".toList
        [("creator".toList, "addr1".toList)]] :=
  ⟨(deploy_calls_library_once_with_creator _
      (sampleWorld (some sampleAccount) "\ncode\n".toList) sampleAccount rfl).1 (by rfl),
   (deploy_calls_library_once_with_creator _
      (sampleWorld (some sampleAccount) "c1\nmissing\n".toList) sampleAccount rfl).2.1
      "no such file".toList (by decide) (by rfl),
   (deploy_calls_library_once_with_creator _
      (sampleWorld (some sampleAccount) "c1\ncode\n".toList) sampleAccount rfl).2.2
      "binary".toList (by decide) (by rfl)⟩

/-- C9: with an account loaded and a non-empty contract name entered, each
copyright wrapper makes exactly one library call, with the method name, the
mode (invoke or query) and the argument map of the table: the map has exactly
the listed keys and each value is the trimmed line typed at its prompt. -/
theorem wrappers_pass_method_and_arguments {F : Type} (codec : FloatCodec F) (env : Env)
    (w : World) (acct : Account) (hacct : w.currentAccount = some acct) :
    (inputLine w.stdin 6 ≠ [] →
      (invokeRegisterCopyright codec env w).calls = w.calls ++
        [LibCall.InvokeNativeContract acct (inputLine w.stdin 6) "RegisterCopyright".toList
          [("copyright_id".toList, inputLine w.stdin 0), ("work_name".toList, inputLine w.stdin 1),
           ("author".toList, inputLine w.stdin 2), ("owner_address".toList, inputLine w.stdin 3),
           ("work_type".toList, inputLine w.stdin 4),
           ("description".toList, inputLine w.stdin 5)]]) ∧
    (inputLine w.stdin 1 ≠ [] →
      (invokeQueryCopyright codec env w).calls = w.calls ++
        [LibCall.QueryNativeContract acct (inputLine w.stdin 1) "QueryCopyright".toList
          [("copyright_id".toList, inputLine w.stdin 0)]]) ∧
    (inputLine w.stdin 2 ≠ [] →
      (invokeTransferCopyright codec env w).calls = w.calls ++
        [LibCall.InvokeNativeContract acct (inputLine w.stdin 2) "TransferCopyright".toList
          [("copyright_id".toList, inputLine w.stdin 0),
           ("new_owner_address".toList, inputLine w.stdin 1)]]) ∧
    (inputLine w.stdin 2 ≠ [] →
      (invokeUpdateCopyrightDescription codec env w).calls = w.calls ++
        [LibCall.InvokeNativeContract acct (inputLine w.stdin 2)
          "UpdateCopyrightDescription".toList
          [("copyright_id".toList, inputLine w.stdin 0),
           ("new_description".toList, inputLine w.stdin 1)]]) ∧
    (inputLine w.stdin 1 ≠ [] →
      (invokeDeleteCopyright codec env w).calls = w.calls ++
        [LibCall.InvokeNativeContract acct (inputLine w.stdin 1) "DeleteCopyright".toList
          [("copyright_id".toList, inputLine w.stdin 0)]]) := by
  have h0 : ∀ m, At w (emit m w) 0 := fun m => (At.start w).shown m
  refine ⟨?_, ?_, ?_, ?_, ?_⟩
  · intro hname
    dsimp only [invokeRegisterCopyright]
    rw [(h0 _).line _, ((h0 _).next _).line _, (((h0 _).next _).next _).line _,
      ((((h0 _).next _).next _).next _).line _, (((((h0 _).next _).next _).next _).next _).line _,
      ((((((h0 _).next _).next _).next _).next _).next _).line _]
    refine Eq.trans (invokeContract_calls codec env _ _ false w _ 6 acct
      (((((((h0 _).next _).next _).next _).next _).next _).next _) hacct hname).1 ?_
    rw [toStringMap_eq, if_neg (by decide)]
  · intro hname
    dsimp only [invokeQueryCopyright]
    rw [(h0 _).line _]
    refine Eq.trans (invokeContract_calls codec env _ _ true w _ 1 acct
      ((h0 _).next _) hacct hname).1 ?_
    rw [toStringMap_eq, if_pos rfl]
  · intro hname
    dsimp only [invokeTransferCopyright]
    rw [(h0 _).line _, ((h0 _).next _).line _]
    refine Eq.trans (invokeContract_calls codec env _ _ false w _ 2 acct
      (((h0 _).next _).next _) hacct hname).1 ?_
    rw [toStringMap_eq, if_neg (by decide)]
  · intro hname
    dsimp only [invokeUpdateCopyrightDescription]
    rw [(h0 _).line _, ((h0 _).next _).line _]
    refine Eq.trans (invokeContract_calls codec env _ _ false w _ 2 acct
      (((h0 _).next _).next _) hacct hname).1 ?_
    rw [toStringMap_eq, if_neg (by decide)]
  · intro hname
    dsimp only [invokeDeleteCopyright]
    rw [(h0 _).line _]
    refine Eq.trans (invokeContract_calls codec env _ _ false w _ 1 acct
      ((h0 _).next _) hacct hname).1 ?_
    rw [toStringMap_eq, if_neg (by decide)]

/-- C5: for a query whose library call succeeded, `invokeContract` takes the
contract-failure branch exactly when the response status is at least 400.  In
that branch it prints the failure line with the status message and then the
body (the body line is there when the body is not empty), so both texts occur
in what is printed, and it prints no success line, no gas line and no indented
text; below 400 it prints the success line, the gas used and the raw body.
The current account and the client handle are unchanged in both branches. -/
theorem query_failure_iff_status_ge_400 {F : Type} (codec : FloatCodec F) (env : Env)
    (methodName : Text) (args : ArgMap) (w : World) (acct : Account) (res : PreExeRes)
    (hacct : w.currentAccount = some acct) (hname : inputLine w.stdin 0 ≠ [])
    (hq : env.QueryNativeContract acct (inputLine w.stdin 0) methodName (toStringMap args) =
      .ok res) :
    ∃ out : List Msg,
      (invokeContract codec env methodName args true w).stdout =
        w.stdout ++ Msg.prompt "输入要调用的合约名称: ".toList :: out ∧
      (res.ContractResponse.Status ≥ 400 →
        out = Msg.contractFailed res.ContractResponse.Message ::
          (if res.ContractResponse.Body.length > 0 then
            [Msg.contractBody res.ContractResponse.Body] else []) ∧
        res.ContractResponse.Message <:+: printedText out ∧
        res.ContractResponse.Body <:+: printedText out) ∧
      (res.ContractResponse.Status < 400 →
        ∃ pretty : List Msg,
          out = Msg.querySuccess (inputLine w.stdin 0) methodName :: Msg.gasUsed res.GasUsed ::
            Msg.rawResult res.ContractResponse.Body :: pretty) ∧
      (Msg.contractFailed res.ContractResponse.Message ∈ out ↔
        res.ContractResponse.Status ≥ 400) ∧
      (res.ContractResponse.Status ≥ 400 →
        ∀ m ∈ out, (∀ c n, m ≠ Msg.querySuccess c n) ∧ (∀ g, m ≠ Msg.gasUsed g) ∧
          (∀ t, m ≠ Msg.formatted t)) ∧
      (invokeContract codec env methodName args true w).currentAccount = w.currentAccount ∧
      (invokeContract codec env methodName args true w).sdkClient = w.sdkClient := by
  rw [invokeContract_query codec env methodName args w acct res hacct hname hq]
  by_cases hs : res.ContractResponse.Status ≥ 400
  · rw [if_pos hs]
    have hs' : ¬ res.ContractResponse.Status < 400 := by omega
    by_cases hb : res.ContractResponse.Body.length > 0
    · rw [if_pos hb]
      refine ⟨[Msg.contractFailed res.ContractResponse.Message,
        Msg.contractBody res.ContractResponse.Body], ?_, ?_, ?_, ?_, ?_, rfl, rfl⟩
      · simp [emit, call, getStringInput]
      · intro _
        refine ⟨by rw [if_pos hb], ?_, ?_⟩
        · simp only [printedText, List.map_cons, List.flatten_cons, Msg.text, List.map_nil,
            List.flatten_nil, List.append_nil, List.append_assoc]
          exact List.infix_append' _ _ _
        · simp only [printedText, List.map_cons, List.flatten_cons, Msg.text, List.map_nil,
            List.flatten_nil, List.append_nil, List.append_assoc]
          exact ⟨"合约查询执行失败: ".toList ++ res.ContractResponse.Message ++ ['\n'] ++
            "合约返回Body: ".toList, ['\n'], by simp only [List.append_assoc]⟩
      · intro h; exact absurd h hs'
      · simp [hs]
      · intro _ m hm
        simp only [List.mem_cons, List.mem_singleton, List.not_mem_nil, or_false] at hm
        rcases hm with rfl | rfl <;> simp
    · rw [if_neg hb]
      have hb0 : res.ContractResponse.Body = [] := by
        cases hbb : res.ContractResponse.Body with
        | nil => rfl
        | cons a l => rw [hbb] at hb; simp at hb
      refine ⟨[Msg.contractFailed res.ContractResponse.Message], ?_, ?_, ?_, ?_, ?_, rfl, rfl⟩
      · simp [emit, call, getStringInput]
      · intro _
        refine ⟨by rw [if_neg hb], ?_, ?_⟩
        · simp only [printedText, List.map_cons, List.flatten_cons, Msg.text, List.map_nil,
            List.flatten_nil, List.append_nil, List.append_assoc]
          exact List.infix_append' _ _ _
        · rw [hb0]; exact List.nil_infix
      · intro h; exact absurd h hs'
      · simp [hs]
      · intro _ m hm
        simp only [List.mem_cons, List.mem_singleton, List.not_mem_nil, or_false] at hm
        subst hm; simp
  · rw [if_neg hs]
    have hs' : res.ContractResponse.Status < 400 := by omega
    cases hu : unmarshalMap codec res.ContractResponse.Body with
    | none =>
      refine ⟨[Msg.querySuccess (inputLine w.stdin 0) methodName, Msg.gasUsed res.GasUsed,
        Msg.rawResult res.ContractResponse.Body], ?_, ?_, ?_, ?_, ?_, rfl, rfl⟩
      · simp [emit, call, getStringInput]
      · intro h; exact absurd h hs
      · intro _; exact ⟨[], rfl⟩
      · simp [hs]
      · intro h; exact absurd h hs
    | some pj =>
      refine ⟨[Msg.querySuccess (inputLine w.stdin 0) methodName, Msg.gasUsed res.GasUsed,
        Msg.rawResult res.ContractResponse.Body, Msg.formatted (marshalIndent codec pj)],
        ?_, ?_, ?_, ?_, ?_, rfl, rfl⟩
      · simp [emit, call, getStringInput]
      · intro h; exact absurd h hs
      · intro _; exact ⟨_, rfl⟩
      · simp [hs]
      · intro h; exact absurd h hs


/-! ## Strings and numbers of `encoding/json` -/

theorem hexVal_hexDigit (k : Nat) (hk : k < 16) : hexVal (hexDigit k) = some k := by
  interval_cases k <;> rfl

theorem getHex4_low (n : Nat) (hn : n < 256) (r : Text) :
    getHex4 ('0' :: '0' :: hexDigit (n / 16) :: hexDigit (n % 16) :: r) = some (n, r) := by
  have h0 : hexVal '0' = some 0 := rfl
  have h1 := hexVal_hexDigit (n / 16) (by omega)
  have h2 := hexVal_hexDigit (n % 16) (by omega)
  simp only [getHex4, h0, h1, h2, Option.some.injEq, Prod.mk.injEq, and_true]
  omega

theorem unquote_succ_cons (f : Nat) (c : Char) (r : Text) :
    unquote (f + 1) (c :: r) =
    if c = dquote then some ([], r)
    else if c = backslash then
      match r with
      | [] => none
      | e :: r1 =>
        if e = 'u' then
          match getHex4 r1 with
          | none => none
          | some (u, r2) =>
            if 55296 ≤ u ∧ u < 57344 then
              match lowSurrogate u r2 with
              | some (ch, r3) => (unquote f r3).map (fun p => (ch :: p.1, p.2))
              | none => (unquote f r2).map (fun p => (Char.ofNat 65533 :: p.1, p.2))
            else (unquote f r2).map (fun p => (Char.ofNat u :: p.1, p.2))
        else
          match simpleEscape e with
          | some ch => (unquote f r1).map (fun p => (ch :: p.1, p.2))
          | none => none
    else if c.toNat < 32 then none
    else (unquote f r).map (fun p => (c :: p.1, p.2)) := by
  rfl

theorem bs_ne_dq : backslash ≠ dquote := by decide

theorem unquote_step (c : Char) (f : Nat) (r : Text) :
    unquote (f + 1) (quoteChar c ++ r) = (unquote f r).map (fun p => (c :: p.1, p.2)) := by
  unfold quoteChar
  split
  · next h =>
    subst h
    rw [List.cons_append, unquote_succ_cons, if_neg bs_ne_dq, if_pos rfl]
    rfl
  · next h1 =>
    split
    · next h =>
      subst h
      rw [List.cons_append, unquote_succ_cons, if_neg bs_ne_dq, if_pos rfl]
      rfl
    · next h2 =>
      split
      · next h =>
        subst h
        rw [List.cons_append, unquote_succ_cons, if_neg bs_ne_dq, if_pos rfl]
        rfl
      · next h3 =>
        split
        · next h =>
          subst h
          rw [List.cons_append, unquote_succ_cons, if_neg bs_ne_dq, if_pos rfl]
          rfl
        · next h4 =>
          split
          · next h =>
            subst h
            rw [List.cons_append, unquote_succ_cons, if_neg bs_ne_dq, if_pos rfl]
            rfl
          · next h5 =>
            split
            · next h =>
              have hn : c.toNat < 256 := by
                rcases h with h | h | h | h
                · omega
                · subst h; decide
                · subst h; decide
                · subst h; decide
              rw [List.cons_append, unquote_succ_cons, if_neg bs_ne_dq, if_pos rfl]
              simp only [List.cons_append, List.nil_append, ↓reduceIte, getHex4_low _ hn]
              rw [if_neg (by omega), Char.ofNat_toNat]
            · next h6 =>
              split
              · next h =>
                have hc : c = Char.ofNat 8232 := by rw [← h, Char.ofNat_toNat]
                subst hc
                rw [List.cons_append, unquote_succ_cons, if_neg bs_ne_dq, if_pos rfl]
                rfl
              · next h7 =>
                split
                · next h =>
                  have hc : c = Char.ofNat 8233 := by rw [← h, Char.ofNat_toNat]
                  subst hc
                  rw [List.cons_append, unquote_succ_cons, if_neg bs_ne_dq, if_pos rfl]
                  rfl
                · next h8 =>
                  rw [List.cons_append, unquote_succ_cons, if_neg h1, if_neg h2, if_neg]
                  · rfl
                  · intro hlt
                    exact h6 (Or.inl hlt)

theorem unquote_quoteBody (s : Text) (f : Nat) (rest : Text) (hf : s.length + 1 ≤ f) :
    unquote f (quoteBody s ++ dquote :: rest) = some (s, rest) := by
  induction s generalizing f with
  | nil =>
    obtain ⟨f, rfl⟩ : ∃ g, f = g + 1 := ⟨f - 1, by simp at hf; omega⟩
    rw [quoteBody, List.nil_append, unquote_succ_cons, if_pos rfl]
  | cons c cs ih =>
    obtain ⟨f, rfl⟩ : ∃ g, f = g + 1 := ⟨f - 1, by simp at hf; omega⟩
    rw [quoteBody, List.append_assoc, unquote_step, ih f (by simp at hf; omega)]
    rfl

theorem length_quoteChar (c : Char) : 1 ≤ (quoteChar c).length := by
  unfold quoteChar
  repeat' split
  all_goals simp

theorem length_quoteBody (s : Text) : s.length ≤ (quoteBody s).length := by
  induction s with
  | nil => exact Nat.le_refl _
  | cons c cs ih =>
    rw [quoteBody, List.length_append, List.length_cons]
    have := length_quoteChar c
    omega

theorem spanDigits_append (s rest : Text)
    (hr : ∀ c r, rest = c :: r → isDigit c = false) :
    spanDigits (s ++ rest) = ((spanDigits s).1, (spanDigits s).2 ++ rest) := by
  induction s with
  | nil =>
    cases rest with
    | nil => rfl
    | cons c r =>
      have := hr c r rfl
      simp only [List.nil_append, spanDigits, this, Bool.false_eq_true, ↓reduceIte]
  | cons c cs ih =>
    rw [List.cons_append]
    by_cases hd : isDigit c = true
    · simp only [spanDigits, hd, ↓reduceIte]
      rw [ih]
    · simp only [spanDigits, hd, Bool.false_eq_true, ↓reduceIte, List.cons_append]

theorem scanExp_append (s p rest : Text) (h : scanExp s = some (p, [])) (hr : NumEnd rest) :
    scanExp (s ++ rest) = some (p, rest) := by
  have hd : ∀ c r, rest = c :: r → isDigit c = false := fun c r e => (hr c r e).1
  cases s with
  | nil =>
    simp only [scanExp, Option.some.injEq, Prod.mk.injEq, and_true] at h
    subst h
    cases rest with
    | nil => rfl
    | cons c r =>
      obtain ⟨_, _, h1, h2⟩ := hr c r rfl
      simp only [List.nil_append, scanExp, h1, h2, or_self, ↓reduceIte]
  | cons c t =>
    by_cases he : c = 'e' ∨ c = 'E'
    · cases t with
      | nil => simp only [scanExp, he, ↓reduceIte] at h; cases h
      | cons g r1 =>
        by_cases hs : g = '+' ∨ g = '-'
        · simp only [scanExp, he, ↓reduceIte, hs] at h
          split at h
          · cases h
          · next hne =>
            simp only [Option.some.injEq, Prod.mk.injEq] at h
            obtain ⟨rfl, h2⟩ := h
            have hsp := spanDigits_append r1 rest hd
            rw [h2, List.nil_append] at hsp
            rw [List.cons_append, List.cons_append]
            simp only [scanExp, he, ↓reduceIte, hs, hsp, hne]
        · simp only [scanExp, he, ↓reduceIte, hs] at h
          split at h
          · cases h
          · next hne =>
            simp only [Option.some.injEq, Prod.mk.injEq] at h
            obtain ⟨rfl, h2⟩ := h
            have hsp := spanDigits_append (g :: r1) rest hd
            rw [h2, List.nil_append, List.cons_append] at hsp
            rw [List.cons_append, List.cons_append]
            simp only [scanExp, he, ↓reduceIte, hs, hsp, hne]
    · simp only [scanExp, he, ↓reduceIte, Option.some.injEq, Prod.mk.injEq] at h
      cases h.2

theorem scanFrac_append (s p rest : Text) (h : scanFrac s = some (p, [])) (hr : NumEnd rest) :
    scanFrac (s ++ rest) = some (p, rest) := by
  cases s with
  | nil =>
    simp only [scanFrac, Option.some.injEq, Prod.mk.injEq, and_true] at h
    subst h
    cases rest with
    | nil => rfl
    | cons c r =>
      obtain ⟨_, h0, h1, h2⟩ := hr c r rfl
      simp only [List.nil_append, scanFrac, h0, ↓reduceIte, scanExp, h1, h2, or_self]
  | cons c t =>
    by_cases hdot : c = '.'
    · simp only [scanFrac, hdot, ↓reduceIte] at h
      split at h
      · cases h
      · next hne =>
        cases hq : scanExp (spanDigits t).2 with
        | none => rw [hq] at h; cases h
        | some pq =>
          obtain ⟨p1, q1⟩ := pq
          rw [hq] at h
          simp only [Option.map_some', Option.some.injEq, Prod.mk.injEq] at h
          obtain ⟨rfl, rfl⟩ := h
          have hsp := spanDigits_append t rest (fun c r e => (hr c r e).1)
          have hq' := scanExp_append _ p1 rest hq hr
          rw [List.cons_append]
          simp only [scanFrac, hdot, ↓reduceIte, hsp, hne, hq', Option.map_some']
    · simp only [scanFrac, hdot, ↓reduceIte] at h
      have := scanExp_append (c :: t) p rest h hr
      rw [List.cons_append] at this ⊢
      simp only [scanFrac, hdot, ↓reduceIte, this]

theorem scanInt_append (s p rest : Text) (h : scanInt s = some (p, [])) (hr : NumEnd rest) :
    scanInt (s ++ rest) = some (p, rest) := by
  cases s with
  | nil => simp only [scanInt] at h; cases h
  | cons c t =>
    by_cases h0 : c = '0'
    · simp only [scanInt, h0, ↓reduceIte] at h
      cases hq : scanFrac t with
      | none => rw [hq] at h; cases h
      | some pq =>
        obtain ⟨p1, q1⟩ := pq
        rw [hq] at h
        simp only [Option.map_some', Option.some.injEq, Prod.mk.injEq] at h
        obtain ⟨rfl, rfl⟩ := h
        have hq' := scanFrac_append _ p1 rest hq hr
        rw [List.cons_append]
        simp only [scanInt, h0, ↓reduceIte, hq', Option.map_some']
    · by_cases hd : isDigit c = true
      · simp only [scanInt, h0, ↓reduceIte, hd] at h
        cases hq : scanFrac (spanDigits t).2 with
        | none => rw [hq] at h; cases h
        | some pq =>
          obtain ⟨p1, q1⟩ := pq
          rw [hq] at h
          simp only [Option.map_some', Option.some.injEq, Prod.mk.injEq] at h
          obtain ⟨rfl, rfl⟩ := h
          have hsp := spanDigits_append t rest (fun c r e => (hr c r e).1)
          have hq' := scanFrac_append _ p1 rest hq hr
          rw [List.cons_append]
          simp only [scanInt, h0, ↓reduceIte, hd, hsp, hq', Option.map_some']
      · simp only [scanInt, h0, ↓reduceIte, hd, Bool.false_eq_true] at h
        cases h

theorem scanNumber_append (s p rest : Text) (h : scanNumber s = some (p, []))
    (hr : NumEnd rest) : scanNumber (s ++ rest) = some (p, rest) := by
  cases s with
  | nil => simp only [scanNumber] at h; cases h
  | cons c t =>
    by_cases hm : c = '-'
    · simp only [scanNumber, hm, ↓reduceIte] at h
      cases hq : scanInt t with
      | none => rw [hq] at h; cases h
      | some pq =>
        obtain ⟨p1, q1⟩ := pq
        rw [hq] at h
        simp only [Option.map_some', Option.some.injEq, Prod.mk.injEq] at h
        obtain ⟨rfl, rfl⟩ := h
        have hq' := scanInt_append _ p1 rest hq hr
        rw [List.cons_append]
        simp only [scanNumber, hm, ↓reduceIte, hq', Option.map_some']
    · simp only [scanNumber, hm, ↓reduceIte] at h
      have := scanInt_append (c :: t) p rest h hr
      rw [List.cons_append] at this ⊢
      simp only [scanNumber, hm, ↓reduceIte, this]

/-- What a scanner returns splits its input. -/
theorem spanDigits_eq (s : Text) : (spanDigits s).1 ++ (spanDigits s).2 = s := by
  induction s with
  | nil => rfl
  | cons c cs ih =>
    by_cases hd : isDigit c = true
    · simp only [spanDigits, hd, ↓reduceIte, List.cons_append, ih]
    · simp only [spanDigits, hd, Bool.false_eq_true, ↓reduceIte, List.nil_append]

theorem scanExp_eq (s p q : Text) (h : scanExp s = some (p, q)) : p ++ q = s := by
  cases s with
  | nil =>
    simp only [scanExp, Option.some.injEq, Prod.mk.injEq] at h
    obtain ⟨rfl, rfl⟩ := h; rfl
  | cons c t =>
    by_cases he : c = 'e' ∨ c = 'E'
    · cases t with
      | nil => simp only [scanExp, he, ↓reduceIte] at h; cases h
      | cons g r1 =>
        by_cases hs : g = '+' ∨ g = '-'
        · simp only [scanExp, he, ↓reduceIte, hs] at h
          split at h
          · cases h
          · simp only [Option.some.injEq, Prod.mk.injEq] at h
            obtain ⟨rfl, rfl⟩ := h
            simp only [List.cons_append, spanDigits_eq]
        · simp only [scanExp, he, ↓reduceIte, hs] at h
          split at h
          · cases h
          · simp only [Option.some.injEq, Prod.mk.injEq] at h
            obtain ⟨rfl, rfl⟩ := h
            simp only [List.cons_append, spanDigits_eq]
    · simp only [scanExp, he, ↓reduceIte, Option.some.injEq, Prod.mk.injEq] at h
      obtain ⟨rfl, rfl⟩ := h; rfl

theorem scanFrac_eq (s p q : Text) (h : scanFrac s = some (p, q)) : p ++ q = s := by
  cases s with
  | nil =>
    simp only [scanFrac, Option.some.injEq, Prod.mk.injEq] at h
    obtain ⟨rfl, rfl⟩ := h; rfl
  | cons c t =>
    by_cases hdot : c = '.'
    · simp only [scanFrac, hdot, ↓reduceIte] at h
      split at h
      · cases h
      · cases hq : scanExp (spanDigits t).2 with
        | none => rw [hq] at h; cases h
        | some pq =>
          obtain ⟨p1, q1⟩ := pq
          rw [hq] at h
          simp only [Option.map_some', Option.some.injEq, Prod.mk.injEq] at h
          obtain ⟨rfl, rfl⟩ := h
          have := scanExp_eq _ _ _ hq
          simp only [List.cons_append, List.append_assoc, this, spanDigits_eq, hdot]
    · simp only [scanFrac, hdot, ↓reduceIte] at h
      exact scanExp_eq _ _ _ h

theorem scanInt_eq (s p q : Text) (h : scanInt s = some (p, q)) : p ++ q = s := by
  cases s with
  | nil => simp only [scanInt] at h; cases h
  | cons c t =>
    by_cases h0 : c = '0'
    · simp only [scanInt, h0, ↓reduceIte] at h
      cases hq : scanFrac t with
      | none => rw [hq] at h; cases h
      | some pq =>
        obtain ⟨p1, q1⟩ := pq
        rw [hq] at h
        simp only [Option.map_some', Option.some.injEq, Prod.mk.injEq] at h
        obtain ⟨rfl, rfl⟩ := h
        rw [h0, List.cons_append, scanFrac_eq _ _ _ hq]
    · by_cases hd : isDigit c = true
      · simp only [scanInt, h0, ↓reduceIte, hd] at h
        cases hq : scanFrac (spanDigits t).2 with
        | none => rw [hq] at h; cases h
        | some pq =>
          obtain ⟨p1, q1⟩ := pq
          rw [hq] at h
          simp only [Option.map_some', Option.some.injEq, Prod.mk.injEq] at h
          obtain ⟨rfl, rfl⟩ := h
          simp only [List.cons_append, List.append_assoc, scanFrac_eq _ _ _ hq, spanDigits_eq]
      · simp only [scanInt, h0, ↓reduceIte, hd, Bool.false_eq_true] at h
        cases h

theorem scanNumber_eq (s p q : Text) (h : scanNumber s = some (p, q)) : p ++ q = s := by
  cases s with
  | nil => simp only [scanNumber] at h; cases h
  | cons c t =>
    by_cases hm : c = '-'
    · simp only [scanNumber, hm, ↓reduceIte] at h
      cases hq : scanInt t with
      | none => rw [hq] at h; cases h
      | some pq =>
        obtain ⟨p1, q1⟩ := pq
        rw [hq] at h
        simp only [Option.map_some', Option.some.injEq, Prod.mk.injEq] at h
        obtain ⟨rfl, rfl⟩ := h
        rw [hm, List.cons_append, scanInt_eq _ _ _ hq]
    · simp only [scanNumber, hm, ↓reduceIte] at h
      exact scanInt_eq _ _ _ h

/-- A number literal starts with a minus sign or a digit. -/
theorem scanNumber_head (s p q : Text) (h : scanNumber s = some (p, q)) :
    ∃ c r, s = c :: r ∧ (c = '-' ∨ isDigit c = true) := by
  cases s with
  | nil => simp only [scanNumber] at h; cases h
  | cons c t =>
    refine ⟨c, t, rfl, ?_⟩
    by_cases hm : c = '-'
    · exact Or.inl hm
    · right
      simp only [scanNumber, hm, ↓reduceIte, scanInt] at h
      by_cases h0 : c = '0'
      · subst h0; rfl
      · by_cases hd : isDigit c = true
        · exact hd
        · simp only [h0, ↓reduceIte, hd, Bool.false_eq_true] at h
          cases h

theorem isNumberLiteral_iff (s : Text) : isNumberLiteral s = true ↔ scanNumber s = some (s, []) := by
  unfold isNumberLiteral
  constructor
  · intro h
    split at h
    · next p hq =>
      have := scanNumber_eq _ _ _ hq
      rw [List.append_nil] at this
      rw [hq, this]
    · cases h
  · intro h
    rw [h]


/-! ## One step of the parser -/

theorem skipWS_cons_of_not (c : Char) (r : Text) (h : isWS c = false) :
    skipWS (c :: r) = c :: r := by
  simp only [skipWS, h, Bool.false_eq_true, ↓reduceIte]

theorem skipWS_replicate (n : Nat) (s : Text) : skipWS (List.replicate n ' ' ++ s) = skipWS s := by
  induction n with
  | zero => rfl
  | succ n ih =>
    rw [List.replicate_succ, List.cons_append, skipWS, if_pos (by decide), ih]

theorem skipWS_newline (d : Nat) (s : Text) : skipWS (newline d ++ s) = skipWS s := by
  rw [newline, List.cons_append, skipWS, if_pos (by decide), skipWS_replicate]

theorem parseValue_succ (f dp : Nat) (s : Text) :
    parseValue (f + 1) dp s =
    match skipWS s with
    | [] => none
    | c :: r =>
      if c = '{' then
        if maxNestingDepth ≤ dp then none
        else
          match skipWS r with
          | [] => none
          | c1 :: r1 =>
            if c1 = '}' then some (.object [], r1)
            else (parseMembers f (dp + 1) (c1 :: r1)).map (fun p => (.object p.1, p.2))
      else if c = '[' then
        if maxNestingDepth ≤ dp then none
        else
          match skipWS r with
          | [] => none
          | c1 :: r1 =>
            if c1 = ']' then some (.array [], r1)
            else (parseElems f (dp + 1) (c1 :: r1)).map (fun p => (.array p.1, p.2))
      else if c = dquote then (unquote (r.length + 1) r).map (fun p => (.string p.1, p.2))
      else if c = 't' then (expect ['r', 'u', 'e'] r).map (fun r1 => (.bool true, r1))
      else if c = 'f' then (expect ['a', 'l', 's', 'e'] r).map (fun r1 => (.bool false, r1))
      else if c = 'n' then (expect ['u', 'l', 'l'] r).map (fun r1 => (.null, r1))
      else (scanNumber (c :: r)).map (fun p => (.number p.1, p.2)) := by
  rw [parseValue]
  try rfl

theorem expect_append (word rest : Text) : expect word (word ++ rest) = some rest := by
  unfold expect
  rw [if_pos (List.prefix_append _ _), List.drop_left]

theorem pv_null (f dp : Nat) (s rest : Text) (h : skipWS s = 'n' :: 'u' :: 'l' :: 'l' :: rest) :
    parseValue (f + 1) dp s = some (.null, rest) := by
  rw [parseValue_succ, h]
  simp only
  rw [if_neg (by decide), if_neg (by decide), if_neg (by decide), if_neg (by decide),
    if_neg (by decide), if_pos trivial]
  exact congrArg _ (expect_append ['u', 'l', 'l'] rest)

theorem pv_true (f dp : Nat) (s rest : Text) (h : skipWS s = 't' :: 'r' :: 'u' :: 'e' :: rest) :
    parseValue (f + 1) dp s = some (.bool true, rest) := by
  rw [parseValue_succ, h]
  simp only
  rw [if_neg (by decide), if_neg (by decide), if_neg (by decide), if_pos trivial]
  exact congrArg _ (expect_append ['r', 'u', 'e'] rest)

theorem pv_false (f dp : Nat) (s rest : Text)
    (h : skipWS s = 'f' :: 'a' :: 'l' :: 's' :: 'e' :: rest) :
    parseValue (f + 1) dp s = some (.bool false, rest) := by
  rw [parseValue_succ, h]
  simp only
  rw [if_neg (by decide), if_neg (by decide), if_neg (by decide), if_neg (by decide),
    if_pos trivial]
  exact congrArg _ (expect_append ['a', 'l', 's', 'e'] rest)

theorem unquote_quote (k rest : Text) :
    unquote ((quoteBody k ++ dquote :: rest).length + 1) (quoteBody k ++ dquote :: rest) =
      some (k, rest) := by
  apply unquote_quoteBody
  have := length_quoteBody k
  simp only [List.length_append, List.length_cons]
  omega

theorem quote_append (k rest : Text) :
    quote k ++ rest = dquote :: (quoteBody k ++ dquote :: rest) := by
  simp only [quote, List.cons_append, List.append_assoc, List.nil_append]

theorem pv_string (f dp : Nat) (s k rest : Text) (h : skipWS s = quote k ++ rest) :
    parseValue (f + 1) dp s = some (.string k, rest) := by
  rw [parseValue_succ, h, quote_append]
  simp only
  rw [if_neg (by decide), if_neg (by decide), if_pos trivial, unquote_quote]
  rfl

theorem isDigit_toNat (c : Char) (h : isDigit c = true) : 48 ≤ c.toNat ∧ c.toNat ≤ 57 := by
  simpa [isDigit] using h

theorem not_digit_of_eq (c : Char) (k : Nat) (hk : k < 48 ∨ 57 < k) (h : c = Char.ofNat k)
    (hv : (Char.ofNat k).toNat = k) : isDigit c = false := by
  subst h
  simp only [isDigit, hv, Bool.and_eq_false_imp, decide_eq_true_eq, decide_eq_false_iff_not]
  omega

theorem pv_number (f dp : Nat) (s lit rest : Text) (hl : isNumberLiteral lit = true)
    (hr : NumEnd rest) (h : skipWS s = lit ++ rest) :
    parseValue (f + 1) dp s = some (.number lit, rest) := by
  have hs := (isNumberLiteral_iff lit).1 hl
  obtain ⟨c, r, rfl, hc⟩ := scanNumber_head _ _ _ hs
  have hsc := scanNumber_append _ _ rest hs hr
  rw [parseValue_succ, h]
  rw [List.cons_append] at hsc ⊢
  simp only
  have hne : ∀ k : Nat, (k < 48 ∨ 57 < k) → k ≠ 45 → (Char.ofNat k).toNat = k →
      c ≠ Char.ofNat k := by
    intro k hk h45 hv hck
    rcases hc with hc | hc
    · rw [hc] at hck
      have := congrArg Char.toNat hck
      rw [hv] at this
      exact h45 this.symm
    · rw [not_digit_of_eq c k hk hck hv] at hc
      cases hc
  rw [if_neg (hne 123 (by omega) (by omega) rfl), if_neg (hne 91 (by omega) (by omega) rfl),
    if_neg (show ¬ c = dquote from hne 34 (by omega) (by omega) rfl), if_neg (hne 116 (by omega) (by omega) rfl),
    if_neg (hne 102 (by omega) (by omega) rfl), if_neg (hne 110 (by omega) (by omega) rfl),
    hsc]
  rfl

theorem pv_array_nil (f dp : Nat) (s rest : Text) (hd : ¬ maxNestingDepth ≤ dp)
    (h : skipWS s = '[' :: ']' :: rest) :
    parseValue (f + 1) dp s = some (.array [], rest) := by
  rw [parseValue_succ, h]
  simp only
  rw [if_neg (by decide), if_pos trivial, if_neg hd, skipWS_cons_of_not _ _ (by decide)]
  simp only
  rw [if_pos trivial]

theorem pv_object_nil (f dp : Nat) (s rest : Text) (hd : ¬ maxNestingDepth ≤ dp)
    (h : skipWS s = '{' :: '}' :: rest) :
    parseValue (f + 1) dp s = some (.object [], rest) := by
  rw [parseValue_succ, h]
  simp only
  rw [if_pos trivial, if_neg hd, skipWS_cons_of_not _ _ (by decide)]
  simp only
  rw [if_pos trivial]

theorem pv_array (f dp : Nat) (s r : Text) (c1 : Char) (r1 : Text)
    (hd : ¬ maxNestingDepth ≤ dp) (h : skipWS s = '[' :: r)
    (h1 : skipWS r = c1 :: r1) (hc : c1 ≠ ']') :
    parseValue (f + 1) dp s =
      (parseElems f (dp + 1) (c1 :: r1)).map (fun p => (.array p.1, p.2)) := by
  rw [parseValue_succ, h]
  simp only
  rw [if_neg (by decide), if_pos trivial, if_neg hd, h1]
  simp only
  rw [if_neg hc]

theorem pv_object (f dp : Nat) (s r : Text) (c1 : Char) (r1 : Text)
    (hd : ¬ maxNestingDepth ≤ dp) (h : skipWS s = '{' :: r)
    (h1 : skipWS r = c1 :: r1) (hc : c1 ≠ '}') :
    parseValue (f + 1) dp s =
      (parseMembers f (dp + 1) (c1 :: r1)).map (fun p => (.object p.1, p.2)) := by
  rw [parseValue_succ, h]
  simp only
  rw [if_pos trivial, if_neg hd, h1]
  simp only
  rw [if_neg hc]

theorem pe_comma (f dp : Nat) (s r r1 : Text) (v : JValue Text)
    (h : parseValue f dp s = some (v, r)) (h1 : skipWS r = ',' :: r1) :
    parseElems (f + 1) dp s = (parseElems f dp r1).map (fun p => (v :: p.1, p.2)) := by
  rw [parseElems, h]
  simp only
  rw [h1]
  simp only
  rw [if_pos trivial]

theorem pe_close (f dp : Nat) (s r r1 : Text) (v : JValue Text)
    (h : parseValue f dp s = some (v, r)) (h1 : skipWS r = ']' :: r1) :
    parseElems (f + 1) dp s = some ([v], r1) := by
  rw [parseElems, h]
  simp only
  rw [h1]
  simp only
  rw [if_neg (by decide), if_pos trivial]

theorem pm_key (f dp : Nat) (s k r2 : Text) (h : skipWS s = quote k ++ ':' :: r2) :
    parseMembers (f + 1) dp s =
      match parseValue f dp r2 with
      | none => none
      | some (v, r3) =>
        match skipWS r3 with
        | [] => none
        | c1 :: r4 =>
          if c1 = ',' then (parseMembers f dp r4).map (fun p => ((k, v) :: p.1, p.2))
          else if c1 = '}' then some ([(k, v)], r4)
          else none := by
  rw [parseMembers, h, quote_append]
  simp only
  rw [if_pos trivial, unquote_quote]
  simp only
  rw [skipWS_cons_of_not _ _ (by decide)]
  simp only
  rw [if_pos trivial]
  try rfl


/-! ## Parsing what `json.MarshalIndent` writes -/

theorem numEnd_nil : NumEnd [] := by
  intro c r h; cases h

theorem numEnd_comma (r : Text) : NumEnd (',' :: r) := by
  intro c r' h
  cases h
  exact ⟨by decide, by decide, by decide, by decide⟩

theorem numEnd_newline (d : Nat) (r : Text) : NumEnd (newline d ++ r) := by
  intro c r' h
  rw [newline, List.cons_append] at h
  cases h
  exact ⟨by decide, by decide, by decide, by decide⟩

theorem Opens.append {s : Text} (h : Opens s) (t : Text) : Opens (s ++ t) := by
  obtain ⟨c, r, rfl, h1⟩ := h
  exact ⟨c, r ++ t, rfl, h1⟩

theorem Opens.skipWS {s : Text} (h : Opens s) : GoTest.skipWS s = s := by
  obtain ⟨c, r, rfl, h1, _⟩ := h
  exact skipWS_cons_of_not c r h1

theorem opens_render {F : Type} (c : FloatCodec F)
    (hlit : ∀ f, isNumberLiteral (c.formatFloat f) = true) (d : Nat) (v : JValue F) :
    Opens (render d (encodeValue c v)) := by
  cases v with
  | null => exact ⟨'n', _, rfl, by decide, by decide, by decide⟩
  | bool b =>
    cases b
    · exact ⟨'f', _, rfl, by decide, by decide, by decide⟩
    · exact ⟨'t', _, rfl, by decide, by decide, by decide⟩
  | number f =>
    have hs := (isNumberLiteral_iff _).1 (hlit f)
    obtain ⟨ch, r, he, hc⟩ := scanNumber_head _ _ _ hs
    refine ⟨ch, r, ?_, ?_⟩
    · rw [encodeValue, render, he]
    · rcases hc with rfl | hc
      · exact ⟨by decide, by decide, by decide⟩
      · have := isDigit_toNat ch hc
        refine ⟨?_, ?_, ?_⟩
        · simp only [isWS, Bool.or_eq_false_iff, decide_eq_false_iff_not]
          refine ⟨⟨⟨?_, ?_⟩, ?_⟩, ?_⟩ <;> (intro h; subst h; revert this; decide)
        · intro h; subst h; revert this; decide
        · intro h; subst h; revert this; decide
  | string s => exact ⟨dquote, _, rfl, by decide, by decide, by decide⟩
  | array xs =>
    cases xs with
    | nil => exact ⟨'[', _, rfl, by decide, by decide, by decide⟩
    | cons x xs =>
      exact ⟨'[', _, by rw [encodeValue, encodeElems, render], by decide, by decide, by decide⟩
  | object ms =>
    cases ms with
    | nil => exact ⟨'{', _, rfl, by decide, by decide, by decide⟩
    | cons m ms =>
      obtain ⟨k, v⟩ := m
      exact ⟨'{', _, by rw [encodeValue, encodeMembers, render], by decide, by decide,
        by decide⟩

theorem renderElems_cons_cons (d : Nat) (x y : JValue Text) (ys : List (JValue Text)) :
    renderElems d (x :: y :: ys) = render d x ++ ',' :: (newline d ++ renderElems d (y :: ys)) := by
  rw [renderElems]
  simp only [List.cons_append, List.append_assoc]

theorem renderElems_single (d : Nat) (x : JValue Text) : renderElems d [x] = render d x := by
  rw [renderElems, renderElems]
  simp only [List.append_nil]

theorem renderMembers_cons_cons (d : Nat) (k : Text) (v : JValue Text) (m : Text × JValue Text)
    (ms : List (Text × JValue Text)) :
    renderMembers d ((k, v) :: m :: ms) =
      quote k ++ ':' :: ' ' :: (render d v ++ ',' :: (newline d ++ renderMembers d (m :: ms))) := by
  rw [renderMembers]
  simp only [List.cons_append, List.append_assoc]

theorem renderMembers_single (d : Nat) (k : Text) (v : JValue Text) :
    renderMembers d [(k, v)] = quote k ++ ':' :: ' ' :: render d v := by
  rw [renderMembers, renderMembers]
  simp only [List.append_nil]

theorem opens_quote (k : Text) : Opens (quote k) :=
  ⟨dquote, _, rfl, by decide, by decide, by decide⟩

theorem opens_renderElems {F : Type} (c : FloatCodec F)
    (hlit : ∀ f, isNumberLiteral (c.formatFloat f) = true) (d : Nat) (x : JValue F)
    (xs : List (JValue F)) : Opens (renderElems d (encodeElems c (x :: xs))) := by
  cases xs with
  | nil =>
    rw [encodeElems, encodeElems, renderElems_single]
    exact opens_render c hlit d x
  | cons y ys =>
    rw [encodeElems, encodeElems, renderElems_cons_cons]
    exact (opens_render c hlit d x).append _

theorem opens_renderMembers {F : Type} (c : FloatCodec F) (d : Nat) (m : Text × JValue F)
    (ms : List (Text × JValue F)) : Opens (renderMembers d (encodeMembers c (m :: ms))) := by
  obtain ⟨k, v⟩ := m
  cases ms with
  | nil =>
    rw [encodeMembers, encodeMembers, renderMembers_single]
    exact (opens_quote k).append _
  | cons m2 ms =>
    obtain ⟨k2, v2⟩ := m2
    rw [encodeMembers, encodeMembers, renderMembers_cons_cons]
    exact (opens_quote k).append _

mutual
/-- Parsing the text written for a value gives the value back. -/
theorem parseValue_render {F : Type} (c : FloatCodec F)
    (hlit : ∀ f, isNumberLiteral (c.formatFloat f) = true) :
    ∀ (v : JValue F) (d fuel dp : Nat) (s rest : Text), need (encodeValue c v) ≤ fuel →
      nesting (encodeValue c v) + dp ≤ maxNestingDepth →
      NumEnd rest → skipWS s = render d (encodeValue c v) ++ rest →
      parseValue fuel dp s = some (encodeValue c v, rest)
  | .null, d, fuel, dp, s, rest, hf, _, _, hs => by
    obtain ⟨f, rfl⟩ : ∃ g, fuel = g + 1 := ⟨fuel - 1, by simp only [encodeValue, need] at hf; omega⟩
    exact pv_null f dp s rest hs
  | .bool b, d, fuel, dp, s, rest, hf, _, _, hs => by
    obtain ⟨f, rfl⟩ : ∃ g, fuel = g + 1 := ⟨fuel - 1, by simp only [encodeValue, need] at hf; omega⟩
    cases b
    · exact pv_false f dp s rest hs
    · exact pv_true f dp s rest hs
  | .number x, d, fuel, dp, s, rest, hf, _, hr, hs => by
    obtain ⟨f, rfl⟩ : ∃ g, fuel = g + 1 := ⟨fuel - 1, by simp only [encodeValue, need] at hf; omega⟩
    exact pv_number f dp s _ rest (hlit x) hr hs
  | .string k, d, fuel, dp, s, rest, hf, _, _, hs => by
    obtain ⟨f, rfl⟩ : ∃ g, fuel = g + 1 := ⟨fuel - 1, by simp only [encodeValue, need] at hf; omega⟩
    exact pv_string f dp s k rest hs
  | .array [], d, fuel, dp, s, rest, hf, hn, _, hs => by
    obtain ⟨f, rfl⟩ : ∃ g, fuel = g + 1 :=
      ⟨fuel - 1, by simp only [encodeValue, encodeElems, need] at hf; omega⟩
    have hd : ¬ maxNestingDepth ≤ dp := by
      simp only [encodeValue, encodeElems, nesting] at hn; omega
    exact pv_array_nil f dp s rest hd hs
  | .array (x :: xs), d, fuel, dp, s, rest, hf, hn, _, hs => by
    obtain ⟨f, rfl⟩ : ∃ g, fuel = g + 1 :=
      ⟨fuel - 1, by simp only [encodeValue, need] at hf; omega⟩
    have hf' : needElems (encodeElems c (x :: xs)) ≤ f := by
      simp only [encodeValue, need] at hf; omega
    have hd : ¬ maxNestingDepth ≤ dp := by
      simp only [encodeValue, nesting] at hn; omega
    have hn' : nestingElems (encodeElems c (x :: xs)) + (dp + 1) ≤ maxNestingDepth := by
      simp only [encodeValue, nesting] at hn; omega
    have hop : Opens (renderElems (d + 1) (encodeElems c (x :: xs)) ++
        (newline d ++ ']' :: rest)) := by
      exact (opens_renderElems c hlit (d + 1) x xs).append _
    have hs' : skipWS s = '[' :: (newline (d + 1) ++
        (renderElems (d + 1) (encodeElems c (x :: xs)) ++ (newline d ++ ']' :: rest))) := by
      rw [hs, encodeValue, encodeElems, render]
      simp only [List.cons_append, List.append_assoc, List.nil_append]
    obtain ⟨c1, r1, he, _, hc1, _⟩ := hop
    have h1 : skipWS (newline (d + 1) ++
        (renderElems (d + 1) (encodeElems c (x :: xs)) ++ (newline d ++ ']' :: rest))) =
        c1 :: r1 := by
      rw [skipWS_newline, he]
      exact (Opens.skipWS ⟨c1, r1, rfl, by assumption, hc1, by assumption⟩)
    rw [pv_array f dp s _ c1 r1 hd hs' h1 hc1, ← he,
      parseElems_render c hlit (x :: xs) (d + 1) d f (dp + 1) _ rest (List.cons_ne_nil _ _)
        hf' hn'
        (Opens.skipWS (he ▸ ⟨c1, r1, rfl, by assumption, hc1, by assumption⟩))]
    rfl
  | .object [], d, fuel, dp, s, rest, hf, hn, _, hs => by
    obtain ⟨f, rfl⟩ : ∃ g, fuel = g + 1 :=
      ⟨fuel - 1, by simp only [encodeValue, encodeMembers, need] at hf; omega⟩
    have hd : ¬ maxNestingDepth ≤ dp := by
      simp only [encodeValue, encodeMembers, nesting] at hn; omega
    exact pv_object_nil f dp s rest hd hs
  | .object (m :: ms), d, fuel, dp, s, rest, hf, hn, _, hs => by
    obtain ⟨f, rfl⟩ : ∃ g, fuel = g + 1 :=
      ⟨fuel - 1, by simp only [encodeValue, need] at hf; omega⟩
    have hf' : needMembers (encodeMembers c (m :: ms)) ≤ f := by
      simp only [encodeValue, need] at hf; omega
    have hd : ¬ maxNestingDepth ≤ dp := by
      simp only [encodeValue, nesting] at hn; omega
    have hn' : nestingMembers (encodeMembers c (m :: ms)) + (dp + 1) ≤ maxNestingDepth := by
      simp only [encodeValue, nesting] at hn; omega
    have hop : Opens (renderMembers (d + 1) (encodeMembers c (m :: ms)) ++
        (newline d ++ '}' :: rest)) := by
      exact (opens_renderMembers c (d + 1) m ms).append _
    have hs' : skipWS s = '{' :: (newline (d + 1) ++
        (renderMembers (d + 1) (encodeMembers c (m :: ms)) ++ (newline d ++ '}' :: rest))) := by
      obtain ⟨k, v⟩ := m
      rw [hs, encodeValue, encodeMembers, render]
      simp only [List.cons_append, List.append_assoc, List.nil_append]
    obtain ⟨c1, r1, he, _, _, hc1⟩ := hop
    have h1 : skipWS (newline (d + 1) ++
        (renderMembers (d + 1) (encodeMembers c (m :: ms)) ++ (newline d ++ '}' :: rest))) =
        c1 :: r1 := by
      rw [skipWS_newline, he]
      exact (Opens.skipWS ⟨c1, r1, rfl, by assumption, by assumption, hc1⟩)
    rw [pv_object f dp s _ c1 r1 hd hs' h1 hc1, ← he,
      parseMembers_render c hlit (m :: ms) (d + 1) d f (dp + 1) _ rest (List.cons_ne_nil _ _)
        hf' hn'
        (Opens.skipWS (he ▸ ⟨c1, r1, rfl, by assumption, by assumption, hc1⟩))]
    rfl
/-- Parsing the text written for the elements of an array, up to the closing
bracket, gives the elements back. -/
theorem parseElems_render {F : Type} (c : FloatCodec F)
    (hlit : ∀ f, isNumberLiteral (c.formatFloat f) = true) :
    ∀ (xs : List (JValue F)) (d d1 fuel dp : Nat) (s rest : Text), xs ≠ [] →
      needElems (encodeElems c xs) ≤ fuel →
      nestingElems (encodeElems c xs) + dp ≤ maxNestingDepth →
      skipWS s = renderElems d (encodeElems c xs) ++ (newline d1 ++ ']' :: rest) →
      parseElems fuel dp s = some (encodeElems c xs, rest)
  | [], _, _, _, _, _, _, hne, _, _, _ => absurd rfl hne
  | [x], d, d1, fuel, dp, s, rest, _, hf, hn, hs => by
    obtain ⟨f, rfl⟩ : ∃ g, fuel = g + 1 :=
      ⟨fuel - 1, by simp only [encodeElems, needElems] at hf; omega⟩
    have hf' : need (encodeValue c x) ≤ f := by
      simp only [encodeElems, needElems] at hf; omega
    have hn' : nesting (encodeValue c x) + dp ≤ maxNestingDepth := by
      simp only [encodeElems, nestingElems] at hn; omega
    have hv := parseValue_render c hlit x d f dp s (newline d1 ++ ']' :: rest) hf' hn'
      (numEnd_newline _ _) (by rw [hs, encodeElems, encodeElems, renderElems_single])
    rw [pe_close f dp s _ rest _ hv
      (by rw [skipWS_newline, skipWS_cons_of_not _ _ (by decide)])]
    rfl
  | x :: y :: ys, d, d1, fuel, dp, s, rest, _, hf, hn, hs => by
    obtain ⟨f, rfl⟩ : ∃ g, fuel = g + 1 :=
      ⟨fuel - 1, by simp only [encodeElems, needElems] at hf; omega⟩
    have hf1 : need (encodeValue c x) ≤ f := by
      simp only [encodeElems, needElems] at hf; omega
    have hf2 : needElems (encodeElems c (y :: ys)) ≤ f := by
      simp only [encodeElems, needElems] at hf ⊢; omega
    have hn1 : nesting (encodeValue c x) + dp ≤ maxNestingDepth := by
      simp only [encodeElems, nestingElems] at hn; omega
    have hn2 : nestingElems (encodeElems c (y :: ys)) + dp ≤ maxNestingDepth := by
      simp only [encodeElems, nestingElems] at hn ⊢; omega
    have hs1 : skipWS s = render d (encodeValue c x) ++ ',' :: (newline d ++
        (renderElems d (encodeElems c (y :: ys)) ++ (newline d1 ++ ']' :: rest))) := by
      rw [hs, encodeElems, encodeElems, renderElems_cons_cons, ← encodeElems]
      simp only [List.cons_append, List.append_assoc]
    have hv := parseValue_render c hlit x d f dp s _ hf1 hn1 (numEnd_comma _) hs1
    have hop : Opens (renderElems d (encodeElems c (y :: ys)) ++ (newline d1 ++ ']' :: rest)) := by
      exact (opens_renderElems c hlit d y ys).append _
    have hrec := parseElems_render c hlit (y :: ys) d d1 f dp
      (newline d ++ (renderElems d (encodeElems c (y :: ys)) ++ (newline d1 ++ ']' :: rest)))
      rest (List.cons_ne_nil _ _) hf2 hn2 (by rw [skipWS_newline, hop.skipWS])
    rw [pe_comma f dp s _ _ _ hv (skipWS_cons_of_not _ _ (by decide)), hrec]
    rfl
/-- Parsing the text written for the members of an object, up to the closing
brace, gives the members back. -/
theorem parseMembers_render {F : Type} (c : FloatCodec F)
    (hlit : ∀ f, isNumberLiteral (c.formatFloat f) = true) :
    ∀ (ms : List (Text × JValue F)) (d d1 fuel dp : Nat) (s rest : Text), ms ≠ [] →
      needMembers (encodeMembers c ms) ≤ fuel →
      nestingMembers (encodeMembers c ms) + dp ≤ maxNestingDepth →
      skipWS s = renderMembers d (encodeMembers c ms) ++ (newline d1 ++ '}' :: rest) →
      parseMembers fuel dp s = some (encodeMembers c ms, rest)
  | [], _, _, _, _, _, _, hne, _, _, _ => absurd rfl hne
  | [(k, v)], d, d1, fuel, dp, s, rest, _, hf, hn, hs => by
    obtain ⟨f, rfl⟩ : ∃ g, fuel = g + 1 :=
      ⟨fuel - 1, by simp only [encodeMembers, needMembers] at hf; omega⟩
    have hf' : need (encodeValue c v) ≤ f := by
      simp only [encodeMembers, needMembers] at hf; omega
    have hs1 : skipWS s = quote k ++ ':' :: (' ' :: (render d (encodeValue c v) ++
        (newline d1 ++ '}' :: rest))) := by
      rw [hs, encodeMembers, encodeMembers, renderMembers_single]
      simp only [List.cons_append, List.append_assoc]
    have hn' : nesting (encodeValue c v) + dp ≤ maxNestingDepth := by
      simp only [encodeMembers, nestingMembers] at hn; omega
    have hv := parseValue_render c hlit v d f dp
      (' ' :: (render d (encodeValue c v) ++ (newline d1 ++ '}' :: rest)))
      (newline d1 ++ '}' :: rest) hf' hn' (numEnd_newline _ _)
      (by rw [skipWS, if_pos (by decide), ((opens_render c hlit d v).append _).skipWS])
    rw [pm_key f dp s k _ hs1, hv]
    simp only
    rw [skipWS_newline, skipWS_cons_of_not _ _ (by decide)]
    simp only
    rw [if_neg (by decide), if_pos trivial]
    rfl
  | (k, v) :: m :: ms, d, d1, fuel, dp, s, rest, _, hf, hn, hs => by
    obtain ⟨f, rfl⟩ : ∃ g, fuel = g + 1 :=
      ⟨fuel - 1, by simp only [encodeMembers, needMembers] at hf; omega⟩
    have hf1 : need (encodeValue c v) ≤ f := by
      simp only [encodeMembers, needMembers] at hf; omega
    have hf2 : needMembers (encodeMembers c (m :: ms)) ≤ f := by
      obtain ⟨k2, v2⟩ := m
      simp only [encodeMembers, needMembers] at hf ⊢; omega
    have hn1 : nesting (encodeValue c v) + dp ≤ maxNestingDepth := by
      simp only [encodeMembers, nestingMembers] at hn; omega
    have hn2 : nestingMembers (encodeMembers c (m :: ms)) + dp ≤ maxNestingDepth := by
      obtain ⟨k2, v2⟩ := m
      simp only [encodeMembers, nestingMembers] at hn ⊢; omega
    have hs1 : skipWS s = quote k ++ ':' :: (' ' :: (render d (encodeValue c v) ++
        ',' :: (newline d ++ (renderMembers d (encodeMembers c (m :: ms)) ++
          (newline d1 ++ '}' :: rest))))) := by
      obtain ⟨k2, v2⟩ := m
      rw [hs, encodeMembers, encodeMembers, renderMembers_cons_cons, ← encodeMembers]
      simp only [List.cons_append, List.append_assoc]
    have hv := parseValue_render c hlit v d f dp
      (' ' :: (render d (encodeValue c v) ++ ',' :: (newline d ++
        (renderMembers d (encodeMembers c (m :: ms)) ++ (newline d1 ++ '}' :: rest)))))
      _ hf1 hn1 (numEnd_comma _)
      (by rw [skipWS, if_pos (by decide), ((opens_render c hlit d v).append _).skipWS])
    have hop : Opens (renderMembers d (encodeMembers c (m :: ms)) ++
        (newline d1 ++ '}' :: rest)) := by
      exact (opens_renderMembers c d m ms).append _
    have hrec := parseMembers_render c hlit (m :: ms) d d1 f dp
      (newline d ++ (renderMembers d (encodeMembers c (m :: ms)) ++ (newline d1 ++ '}' :: rest)))
      rest (List.cons_ne_nil _ _) hf2 hn2 (by rw [skipWS_newline, hop.skipWS])
    rw [pm_key f dp s k _ hs1, hv]
    simp only
    rw [skipWS_cons_of_not _ _ (by decide)]
    simp only
    rw [if_pos trivial, hrec]
    rfl
end


theorem length_newline (d : Nat) : (newline d).length = 2 * d + 1 := by
  simp [newline]

mutual
theorem need_le_render : ∀ (t : JValue Text) (d : Nat), need t ≤ (render d t).length + 1
  | .null, _ => by simp [need, render]
  | .bool _, _ => by simp [need]
  | .number _, _ => by simp [need]
  | .string _, _ => by simp [need]
  | .array [], _ => by simp [need, needElems, render]
  | .array (x :: xs), d => by
    have := needElems_le_render (x :: xs) (d + 1)
    simp only [need, render, List.length_cons, List.length_append, length_newline,
      List.length_nil]
    omega
  | .object [], _ => by simp [need, needMembers, render]
  | .object (m :: ms), d => by
    have := needMembers_le_render (m :: ms) (d + 1)
    simp only [need, render, List.length_cons, List.length_append, length_newline,
      List.length_nil]
    omega
theorem needElems_le_render :
    ∀ (xs : List (JValue Text)) (d : Nat), needElems xs ≤ (renderElems d xs).length + 2
  | [], _ => by simp [needElems]
  | [x], d => by
    have := need_le_render x d
    rw [renderElems_single]
    simp only [needElems]
    omega
  | x :: y :: ys, d => by
    have h1 := need_le_render x d
    have h2 := needElems_le_render (y :: ys) d
    rw [renderElems_cons_cons]
    simp only [needElems, List.length_cons, List.length_append, length_newline] at h2 ⊢
    omega
theorem needMembers_le_render :
    ∀ (ms : List (Text × JValue Text)) (d : Nat),
      needMembers ms ≤ (renderMembers d ms).length + 2
  | [], _ => by simp [needMembers]
  | [(k, v)], d => by
    have := need_le_render v d
    rw [renderMembers_single]
    simp only [needMembers, List.length_cons, List.length_append]
    omega
  | (k, v) :: m :: ms, d => by
    have h1 := need_le_render v d
    have h2 := needMembers_le_render (m :: ms) d
    rw [renderMembers_cons_cons]
    simp only [needMembers, List.length_cons, List.length_append, length_newline] at h2 ⊢
    omega
end

/-- The text `json.MarshalIndent` writes for a Go value within the nesting
limit parses, as a whole, to the document that was written. -/
theorem parseJSON_render {F : Type} (c : FloatCodec F)
    (hlit : ∀ f, isNumberLiteral (c.formatFloat f) = true) (v : JValue F)
    (hn : nesting (encodeValue c v) ≤ maxNestingDepth) :
    parseJSON (render 0 (encodeValue c v)) = some (encodeValue c v) := by
  have h := parseValue_render c hlit v 0 ((render 0 (encodeValue c v)).length + 1) 0
    (render 0 (encodeValue c v)) [] (need_le_render _ 0) (by omega) numEnd_nil
    (by rw [List.append_nil, (opens_render c hlit 0 v).skipWS])
  unfold parseJSON
  rw [h]
  rfl

/-! ## Go values: maps with increasing keys -/

theorem char_eq_of_toNat (a b : Char) (h : a.toNat = b.toNat) : a = b := by
  rw [← Char.ofNat_toNat a, ← Char.ofNat_toNat b, h]

theorem keyLt_irrefl (a : Text) : keyLt a a = false := by
  induction a with
  | nil => rfl
  | cons c cs ih => simp [keyLt, ih]

theorem keyLt_trans : ∀ (a b c : Text), keyLt a b = true → keyLt b c = true → keyLt a c = true
  | _, [], _, h, _ => by
    cases ‹Text› <;> simp [keyLt] at h
  | _, _ :: _, [], _, h => by simp [keyLt] at h
  | [], _ :: _, _ :: _, _, _ => rfl
  | x :: xs, y :: ys, z :: zs, h1, h2 => by
    simp only [keyLt, Bool.or_eq_true, decide_eq_true_eq, Bool.and_eq_true] at h1 h2 ⊢
    rcases h1 with h1 | ⟨rfl, h1⟩
    · rcases h2 with h2 | ⟨rfl, _⟩
      · exact Or.inl (by omega)
      · exact Or.inl h1
    · rcases h2 with h2 | ⟨rfl, h2⟩
      · exact Or.inl h2
      · exact Or.inr ⟨rfl, keyLt_trans xs ys zs h1 h2⟩

theorem keyLt_total : ∀ (a b : Text), a ≠ b → keyLt a b = false → keyLt b a = true
  | [], [], h, _ => absurd rfl h
  | [], _ :: _, _, h => by simp [keyLt] at h
  | _ :: _, [], _, _ => rfl
  | x :: xs, y :: ys, hne, h => by
    simp only [keyLt, Bool.or_eq_false_iff, decide_eq_false_iff_not, not_lt,
      Bool.and_eq_false_imp, decide_eq_true_eq] at h
    simp only [keyLt, Bool.or_eq_true, decide_eq_true_eq, Bool.and_eq_true]
    by_cases hxy : x = y
    · subst hxy
      right
      refine ⟨rfl, keyLt_total xs ys (fun e => hne (by rw [e])) (h.2 rfl)⟩
    · left
      have : x.toNat ≠ y.toNat := fun e => hxy (char_eq_of_toNat _ _ e)
      omega

theorem keyLt_asymm (a b : Text) (h : keyLt a b = true) : keyLt b a = false := by
  cases hb : keyLt b a with
  | false => rfl
  | true =>
    have := keyLt_trans a b a h hb
    rw [keyLt_irrefl] at this
    cases this

theorem keyLt_ne (a b : Text) (h : keyLt a b = true) : a ≠ b := by
  rintro rfl
  rw [keyLt_irrefl] at h
  cases h

theorem mem_mapInsert {F : Type} (k : Text) (v : JValue F) (b : Text × JValue F) :
    ∀ ms : List (Text × JValue F), b ∈ mapInsert k v ms → b = (k, v) ∨ b ∈ ms
  | [], h => by
    simp only [mapInsert, List.mem_singleton] at h
    exact Or.inl h
  | (k1, v1) :: ms, h => by
    simp only [mapInsert] at h
    split at h
    · simp only [List.mem_cons] at h ⊢
      exact h
    · split at h
      · simp only [List.mem_cons] at h ⊢
        rcases h with h | h
        · exact Or.inl h
        · exact Or.inr (Or.inr h)
      · simp only [List.mem_cons] at h ⊢
        rcases h with h | h
        · exact Or.inr (Or.inl h)
        · rcases mem_mapInsert k v b ms h with h | h
          · exact Or.inl h
          · exact Or.inr (Or.inr h)

theorem mapInsert_sorted {F : Type} (k : Text) (v : JValue F) :
    ∀ ms : List (Text × JValue F), SortedKeys ms → SortedKeys (mapInsert k v ms)
  | [], _ => by simp [SortedKeys, mapInsert]
  | (k1, v1) :: ms, h => by
    unfold SortedKeys at h ⊢
    rw [List.pairwise_cons] at h
    simp only [mapInsert]
    split
    · next hlt =>
      rw [List.pairwise_cons, List.pairwise_cons]
      refine ⟨?_, h.1, h.2⟩
      intro b hb
      rw [List.mem_cons] at hb
      rcases hb with rfl | hb
      · exact hlt
      · exact keyLt_trans _ _ _ hlt (h.1 b hb)
    · next hlt =>
      split
      · next heq =>
        subst heq
        rw [List.pairwise_cons]
        exact ⟨h.1, h.2⟩
      · next hne =>
        rw [List.pairwise_cons]
        refine ⟨?_, mapInsert_sorted k v ms h.2⟩
        intro b hb
        rcases mem_mapInsert k v b ms hb with rfl | hb
        · exact keyLt_total _ _ hne (by simpa using hlt)
        · exact h.1 b hb

theorem mapInsert_append {F : Type} (k : Text) (v : JValue F) :
    ∀ acc : List (Text × JValue F), (∀ a ∈ acc, keyLt a.1 k = true) →
      mapInsert k v acc = acc ++ [(k, v)]
  | [], _ => rfl
  | (k1, v1) :: acc, h => by
    have h1 : keyLt k1 k = true := h (k1, v1) (List.mem_cons_self _ _)
    simp only [mapInsert]
    rw [if_neg (by rw [keyLt_asymm _ _ h1]; decide), if_neg (fun e => keyLt_ne _ _ h1 e.symm),
      mapInsert_append k v acc (fun a ha => h a (List.mem_cons_of_mem _ ha))]
    rfl

theorem normalMembers_iff {F : Type} :
    ∀ ms : List (Text × JValue F), NormalMembers ms ↔ ∀ b ∈ ms, Normal b.2
  | [] => by simp [NormalMembers]
  | (k, v) :: ms => by
    simp only [NormalMembers, List.mem_cons, forall_eq_or_imp, normalMembers_iff ms]

mutual
/-- Decoding the document the encoder writes for a Go value gives the value. -/
theorem decodeValue_encodeValue {F : Type} (c : FloatCodec F)
    (hrt : ∀ f, c.parseFloat (c.formatFloat f) = some f) :
    ∀ v : JValue F, Normal v → decodeValue c (encodeValue c v) = some v
  | .null, _ => rfl
  | .bool _, _ => rfl
  | .number f, _ => by simp only [encodeValue, decodeValue, hrt, Option.map_some']
  | .string _, _ => rfl
  | .array xs, h => by
    simp only [Normal] at h
    simp only [encodeValue, decodeValue, decodeElems_encodeElems c hrt xs h, Option.map_some']
  | .object ms, h => by
    simp only [Normal] at h
    have := decodeMembers_encodeMembers c hrt ms [] h.2 (by simpa using h.1)
    simp only [encodeValue, decodeValue, this, List.nil_append, Option.map_some']
theorem decodeElems_encodeElems {F : Type} (c : FloatCodec F)
    (hrt : ∀ f, c.parseFloat (c.formatFloat f) = some f) :
    ∀ xs : List (JValue F), NormalElems xs → decodeElems c (encodeElems c xs) = some xs
  | [], _ => rfl
  | x :: xs, h => by
    simp only [NormalElems] at h
    simp only [encodeElems, decodeElems, decodeValue_encodeValue c hrt x h.1,
      decodeElems_encodeElems c hrt xs h.2]
theorem decodeMembers_encodeMembers {F : Type} (c : FloatCodec F)
    (hrt : ∀ f, c.parseFloat (c.formatFloat f) = some f) :
    ∀ (ms acc : List (Text × JValue F)), NormalMembers ms → SortedKeys (acc ++ ms) →
      decodeMembers c (encodeMembers c ms) acc = some (acc ++ ms)
  | [], acc, _, _ => by simp only [encodeMembers, decodeMembers, List.append_nil]
  | (k, v) :: ms, acc, hn, hs => by
    simp only [NormalMembers] at hn
    have hlt : ∀ a ∈ acc, keyLt a.1 k = true := by
      intro a ha
      unfold SortedKeys at hs
      rw [List.pairwise_append] at hs
      exact hs.2.2 a ha (k, v) (List.mem_cons_self _ _)
    have hs' : SortedKeys ((acc ++ [(k, v)]) ++ ms) := by
      simpa only [List.append_assoc, List.singleton_append] using hs
    simp only [encodeMembers, decodeMembers, decodeValue_encodeValue c hrt v hn.1,
      mapInsert_append k v acc hlt]
    rw [decodeMembers_encodeMembers c hrt ms (acc ++ [(k, v)]) hn.2 hs']
    simp only [List.append_assoc, List.singleton_append]
end

mutual
/-- What the decoder builds is a Go value: the keys of every map are strictly
increasing. -/
theorem normal_decodeValue {F : Type} (c : FloatCodec F) :
    ∀ (t : JValue Text) (v : JValue F), decodeValue c t = some v → Normal v
  | .null, v, h => by
    simp only [decodeValue, Option.some.injEq] at h; subst h; simp only [Normal]
  | .bool _, v, h => by
    simp only [decodeValue, Option.some.injEq] at h; subst h; simp only [Normal]
  | .number _, v, h => by
    simp only [decodeValue, Option.map_eq_some'] at h
    obtain ⟨f, _, rfl⟩ := h
    simp only [Normal]
  | .string _, v, h => by
    simp only [decodeValue, Option.some.injEq] at h; subst h; simp only [Normal]
  | .array ts, v, h => by
    simp only [decodeValue, Option.map_eq_some'] at h
    obtain ⟨vs, hvs, rfl⟩ := h
    simp only [Normal]
    exact normal_decodeElems c ts vs hvs
  | .object ts, v, h => by
    simp only [decodeValue, Option.map_eq_some'] at h
    obtain ⟨ms, hms, rfl⟩ := h
    simp only [Normal]
    exact normal_decodeMembers c ts [] ms hms (by simp [SortedKeys]) (by simp [NormalMembers])
theorem normal_decodeElems {F : Type} (c : FloatCodec F) :
    ∀ (ts : List (JValue Text)) (vs : List (JValue F)), decodeElems c ts = some vs →
      NormalElems vs
  | [], vs, h => by
    simp only [decodeElems, Option.some.injEq] at h; subst h; simp only [NormalElems]
  | t :: ts, vs, h => by
    simp only [decodeElems] at h
    cases h1 : decodeValue c t with
    | none => rw [h1] at h; simp at h
    | some y =>
      cases h2 : decodeElems c ts with
      | none => rw [h1, h2] at h; simp at h
      | some ys =>
        rw [h1, h2] at h
        simp only [Option.some.injEq] at h
        subst h
        simp only [NormalElems]
        exact ⟨normal_decodeValue c t y h1, normal_decodeElems c ts ys h2⟩
theorem normal_decodeMembers {F : Type} (c : FloatCodec F) :
    ∀ (ts : List (Text × JValue Text)) (acc r : List (Text × JValue F)),
      decodeMembers c ts acc = some r → SortedKeys acc → NormalMembers acc →
      SortedKeys r ∧ NormalMembers r
  | [], acc, r, h, hs, hn => by
    simp only [decodeMembers, Option.some.injEq] at h; subst h; exact ⟨hs, hn⟩
  | (k, t) :: ts, acc, r, h, hs, hn => by
    simp only [decodeMembers] at h
    cases h1 : decodeValue c t with
    | none => rw [h1] at h; simp at h
    | some y =>
      rw [h1] at h
      simp only at h
      refine normal_decodeMembers c ts (mapInsert k y acc) r h (mapInsert_sorted k y acc hs) ?_
      rw [normalMembers_iff] at hn ⊢
      intro b hb
      rcases mem_mapInsert k y b acc hb with rfl | hb
      · exact normal_decodeValue c t y h1
      · exact hn b hb
end


/-! ## The nesting limit -/

mutual
/-- The encoder keeps the nesting of a value. -/
theorem nesting_encodeValue {F : Type} (c : FloatCodec F) :
    ∀ v : JValue F, nesting (encodeValue c v) = nesting v
  | .null => rfl
  | .bool _ => rfl
  | .number _ => rfl
  | .string _ => rfl
  | .array xs => by simp only [encodeValue, nesting, nesting_encodeElems c xs]
  | .object ms => by simp only [encodeValue, nesting, nesting_encodeMembers c ms]
theorem nesting_encodeElems {F : Type} (c : FloatCodec F) :
    ∀ xs : List (JValue F), nestingElems (encodeElems c xs) = nestingElems xs
  | [] => rfl
  | x :: xs => by
    simp only [encodeElems, nestingElems, nesting_encodeValue c x, nesting_encodeElems c xs]
theorem nesting_encodeMembers {F : Type} (c : FloatCodec F) :
    ∀ ms : List (Text × JValue F), nestingMembers (encodeMembers c ms) = nestingMembers ms
  | [] => rfl
  | (_, v) :: ms => by
    simp only [encodeMembers, nestingMembers, nesting_encodeValue c v,
      nesting_encodeMembers c ms]
end

theorem nestingMembers_mapInsert {F : Type} (k : Text) (v : JValue F) :
    ∀ ms : List (Text × JValue F),
      nestingMembers (mapInsert k v ms) ≤ max (nesting v) (nestingMembers ms)
  | [] => by simp [mapInsert, nestingMembers]
  | (k1, v1) :: ms => by
    have ih := nestingMembers_mapInsert k v ms
    simp only [mapInsert]
    split
    · simp only [nestingMembers]; omega
    · split
      · simp only [nestingMembers]; omega
      · simp only [nestingMembers]; omega

mutual
/-- The decoder does not deepen a value. -/
theorem nesting_decodeValue {F : Type} (c : FloatCodec F) :
    ∀ (t : JValue Text) (v : JValue F), decodeValue c t = some v → nesting v ≤ nesting t
  | .null, v, h => by
    simp only [decodeValue, Option.some.injEq] at h; subst h; exact Nat.le_refl _
  | .bool _, v, h => by
    simp only [decodeValue, Option.some.injEq] at h; subst h; exact Nat.le_refl _
  | .number _, v, h => by
    simp only [decodeValue, Option.map_eq_some'] at h
    obtain ⟨f, _, rfl⟩ := h
    exact Nat.le_refl _
  | .string _, v, h => by
    simp only [decodeValue, Option.some.injEq] at h; subst h; exact Nat.le_refl _
  | .array ts, v, h => by
    simp only [decodeValue, Option.map_eq_some'] at h
    obtain ⟨vs, hvs, rfl⟩ := h
    have := nesting_decodeElems c ts vs hvs
    simp only [nesting]; omega
  | .object ts, v, h => by
    simp only [decodeValue, Option.map_eq_some'] at h
    obtain ⟨ms, hms, rfl⟩ := h
    have := nesting_decodeMembers c ts [] ms hms
    simp only [nesting, nestingMembers] at this ⊢; omega
theorem nesting_decodeElems {F : Type} (c : FloatCodec F) :
    ∀ (ts : List (JValue Text)) (vs : List (JValue F)), decodeElems c ts = some vs →
      nestingElems vs ≤ nestingElems ts
  | [], vs, h => by
    simp only [decodeElems, Option.some.injEq] at h; subst h; exact Nat.le_refl _
  | t :: ts, vs, h => by
    simp only [decodeElems] at h
    cases h1 : decodeValue c t with
    | none => rw [h1] at h; simp at h
    | some y =>
      cases h2 : decodeElems c ts with
      | none => rw [h1, h2] at h; simp at h
      | some ys =>
        rw [h1, h2] at h
        simp only [Option.some.injEq] at h
        subst h
        have e1 := nesting_decodeValue c t y h1
        have e2 := nesting_decodeElems c ts ys h2
        simp only [nestingElems]; omega
theorem nesting_decodeMembers {F : Type} (c : FloatCodec F) :
    ∀ (ts : List (Text × JValue Text)) (acc r : List (Text × JValue F)),
      decodeMembers c ts acc = some r →
      nestingMembers r ≤ max (nestingMembers ts) (nestingMembers acc)
  | [], acc, r, h => by
    simp only [decodeMembers, Option.some.injEq] at h; subst h
    simp only [nestingMembers]; omega
  | (k, t) :: ts, acc, r, h => by
    simp only [decodeMembers] at h
    cases h1 : decodeValue c t with
    | none => rw [h1] at h; simp at h
    | some y =>
      rw [h1] at h
      simp only at h
      have e1 := nesting_decodeValue c t y h1
      have e2 := nesting_decodeMembers c ts (mapInsert k y acc) r h
      have e3 := nestingMembers_mapInsert k y acc
      simp only [nestingMembers]; omega
end

/-- What the parser accepts with `dp` arrays and objects open around it stays
within the nesting limit. -/
theorem parse_nesting : ∀ (f dp : Nat) (s : Text), dp ≤ maxNestingDepth →
    (∀ t r, parseValue f dp s = some (t, r) → nesting t + dp ≤ maxNestingDepth) ∧
    (∀ ts r, parseElems f dp s = some (ts, r) → nestingElems ts + dp ≤ maxNestingDepth) ∧
    (∀ ts r, parseMembers f dp s = some (ts, r) → nestingMembers ts + dp ≤ maxNestingDepth)
  | 0, dp, s, _ => by
    refine ⟨?_, ?_, ?_⟩ <;> intro t r h
    · rw [parseValue] at h; cases h
    · rw [parseElems] at h; cases h
    · rw [parseMembers] at h; cases h
  | f + 1, dp, s, hdp => by
    refine ⟨?_, ?_, ?_⟩
    · intro t r h
      rw [parseValue_succ] at h
      split at h
      · cases h
      · next c r0 hsk =>
        split at h
        · split at h
          · cases h
          · next hd =>
            split at h
            · cases h
            · next c1 r1 hsk1 =>
              split at h
              · simp only [Option.some.injEq, Prod.mk.injEq] at h
                obtain ⟨rfl, _⟩ := h
                simp only [nesting, nestingMembers]; omega
              · simp only [Option.map_eq_some', Prod.mk.injEq] at h
                obtain ⟨⟨ms, r2⟩, hp, rfl, _⟩ := h
                have := (parse_nesting f (dp + 1) (c1 :: r1) (by omega)).2.2 ms r2 hp
                simp only [nesting]; omega
        · split at h
          · split at h
            · cases h
            · next hd =>
              split at h
              · cases h
              · next c1 r1 hsk1 =>
                split at h
                · simp only [Option.some.injEq, Prod.mk.injEq] at h
                  obtain ⟨rfl, _⟩ := h
                  simp only [nesting, nestingElems]; omega
                · simp only [Option.map_eq_some', Prod.mk.injEq] at h
                  obtain ⟨⟨xs, r2⟩, hp, rfl, _⟩ := h
                  have := (parse_nesting f (dp + 1) (c1 :: r1) (by omega)).2.1 xs r2 hp
                  simp only [nesting]; omega
          · split at h
            · simp only [Option.map_eq_some', Prod.mk.injEq] at h
              obtain ⟨_, _, rfl, _⟩ := h
              simp only [nesting]; omega
            · split at h
              · simp only [Option.map_eq_some', Prod.mk.injEq] at h
                obtain ⟨_, _, rfl, _⟩ := h
                simp only [nesting]; omega
              · split at h
                · simp only [Option.map_eq_some', Prod.mk.injEq] at h
                  obtain ⟨_, _, rfl, _⟩ := h
                  simp only [nesting]; omega
                · split at h
                  · simp only [Option.map_eq_some', Prod.mk.injEq] at h
                    obtain ⟨_, _, rfl, _⟩ := h
                    simp only [nesting]; omega
                  · simp only [Option.map_eq_some', Prod.mk.injEq] at h
                    obtain ⟨_, _, rfl, _⟩ := h
                    simp only [nesting]; omega
    · intro ts r h
      rw [parseElems] at h
      split at h
      · cases h
      · next v r1 hv =>
        have e1 := (parse_nesting f dp s hdp).1 v r1 hv
        split at h
        · cases h
        · next c r2 hsk =>
          split at h
          · simp only [Option.map_eq_some', Prod.mk.injEq] at h
            obtain ⟨⟨xs, r3⟩, hp, rfl, _⟩ := h
            have e2 := (parse_nesting f dp r2 hdp).2.1 xs r3 hp
            simp only [nestingElems]; omega
          · split at h
            · simp only [Option.some.injEq, Prod.mk.injEq] at h
              obtain ⟨rfl, _⟩ := h
              simp only [nestingElems]; omega
            · cases h
    · intro ts r h
      rw [parseMembers] at h
      split at h
      · cases h
      · next q r0 hsk =>
        split at h
        · split at h
          · cases h
          · next key r1 hq =>
            split at h
            · cases h
            · next c r2 hsk2 =>
              split at h
              · split at h
                · cases h
                · next v r3 hv =>
                  have e1 := (parse_nesting f dp r2 hdp).1 v r3 hv
                  split at h
                  · cases h
                  · next c1 r4 hsk4 =>
                    split at h
                    · simp only [Option.map_eq_some', Prod.mk.injEq] at h
                      obtain ⟨⟨ms, r5⟩, hp, rfl, _⟩ := h
                      have e2 := (parse_nesting f dp r4 hdp).2.2 ms r5 hp
                      simp only [nestingMembers]; omega
                    · split at h
                      · simp only [Option.some.injEq, Prod.mk.injEq] at h
                        obtain ⟨rfl, _⟩ := h
                        simp only [nestingMembers]; omega
                      · cases h
              · cases h
        · cases h

/-- A valid JSON text is within the nesting limit. -/
theorem parseJSON_nesting (s : Text) (t : JValue Text) (h : parseJSON s = some t) :
    nesting t ≤ maxNestingDepth := by
  unfold parseJSON at h
  split at h
  · cases h
  · next v r hv =>
    split at h
    · simp only [Option.some.injEq] at h
      subst h
      have := (parse_nesting _ 0 s (Nat.zero_le _)).1 v r hv
      omega
    · cases h

/-! ## `json.Unmarshal` and `json.MarshalIndent` -/

mutual
theorem decodeValue_isSome_iff {F : Type} (c : FloatCodec F) :
    ∀ t : JValue Text,
      (decodeValue c t).isSome = true ↔ ∀ lit ∈ numbersOf t, (c.parseFloat lit).isSome = true
  | .null => by simp [decodeValue, numbersOf]
  | .bool _ => by simp [decodeValue, numbersOf]
  | .number lit => by simp [decodeValue, numbersOf]
  | .string _ => by simp [decodeValue, numbersOf]
  | .array ts => by
    simp only [decodeValue, numbersOf, Option.isSome_map']
    exact decodeElems_isSome_iff c ts
  | .object ts => by
    simp only [decodeValue, numbersOf, Option.isSome_map']
    exact decodeMembers_isSome_iff c ts []
theorem decodeElems_isSome_iff {F : Type} (c : FloatCodec F) :
    ∀ ts : List (JValue Text),
      (decodeElems c ts).isSome = true ↔
        ∀ lit ∈ numbersOfElems ts, (c.parseFloat lit).isSome = true
  | [] => by simp [decodeElems, numbersOfElems]
  | t :: ts => by
    have h1 := decodeValue_isSome_iff c t
    have h2 := decodeElems_isSome_iff c ts
    simp only [numbersOfElems, List.mem_append, or_imp, forall_and, ← h1, ← h2, decodeElems]
    cases decodeValue c t <;> cases decodeElems c ts <;> simp
theorem decodeMembers_isSome_iff {F : Type} (c : FloatCodec F) :
    ∀ (ts : List (Text × JValue Text)) (acc : List (Text × JValue F)),
      (decodeMembers c ts acc).isSome = true ↔
        ∀ lit ∈ numbersOfMembers ts, (c.parseFloat lit).isSome = true
  | [], _ => by simp [decodeMembers, numbersOfMembers]
  | (k, t) :: ts, acc => by
    have h1 := decodeValue_isSome_iff c t
    simp only [numbersOfMembers, List.mem_append, or_imp, forall_and, ← h1, decodeMembers]
    cases hd : decodeValue c t with
    | none => simp
    | some y =>
      have h2 := decodeMembers_isSome_iff c ts (mapInsert k y acc)
      simp only [h2, Option.isSome_some, true_and]
end

/-- `json.Unmarshal` into a map succeeds exactly on a `null` and on an object
all of whose numbers convert. -/
theorem unmarshalMap_isSome_iff {F : Type} (c : FloatCodec F) (body : Text) :
    (unmarshalMap c body).isSome = true ↔
      parseJSON body = some .null ∨
      ∃ ms, parseJSON body = some (.object ms) ∧
        ∀ lit ∈ numbersOfMembers ms, (c.parseFloat lit).isSome = true := by
  unfold unmarshalMap
  cases hp : parseJSON body with
  | none =>
    constructor
    · intro h; cases h
    · rintro (h | ⟨ms, h, _⟩) <;> cases h
  | some t =>
    cases t with
    | null => exact ⟨fun _ => Or.inl rfl, fun _ => rfl⟩
    | bool b =>
      constructor
      · intro h; cases h
      · rintro (h | ⟨ms, h, _⟩) <;> cases h
    | number n =>
      constructor
      · intro h; cases h
      · rintro (h | ⟨ms, h, _⟩) <;> cases h
    | string s =>
      constructor
      · intro h; cases h
      · rintro (h | ⟨ms, h, _⟩) <;> cases h
    | array xs =>
      constructor
      · intro h; cases h
      · rintro (h | ⟨ms, h, _⟩) <;> cases h
    | object ms =>
      simp only [Option.isSome_map', decodeMembers_isSome_iff c ms []]
      constructor
      · intro h; exact Or.inr ⟨ms, rfl, h⟩
      · rintro (h | ⟨ms1, h, h1⟩)
        · cases h
        · cases h; exact h1

/-- What `json.MarshalIndent` writes for the map that `json.Unmarshal` built
from `body` parses back to the value of `body`. -/
theorem unmarshalAny_marshalIndent {F : Type} (c : FloatCodec F)
    (hlit : ∀ f, isNumberLiteral (c.formatFloat f) = true)
    (hrt : ∀ f, c.parseFloat (c.formatFloat f) = some f) (body : Text)
    (pj : Option (List (Text × JValue F))) (hu : unmarshalMap c body = some pj) :
    ∃ v, unmarshalAny c body = some v ∧ unmarshalAny c (marshalIndent c pj) = some v := by
  unfold unmarshalMap at hu
  unfold unmarshalAny
  cases hp : parseJSON body with
  | none => rw [hp] at hu; cases hu
  | some t =>
    rw [hp] at hu
    cases t with
    | null =>
      simp only [Option.some.injEq] at hu
      subst hu
      exact ⟨.null, rfl, rfl⟩
    | bool b => cases hu
    | number n => cases hu
    | string s => cases hu
    | array xs => cases hu
    | object ms0 =>
      simp only [Option.map_eq_some'] at hu
      obtain ⟨ms, hms, rfl⟩ := hu
      have hn := normal_decodeMembers c ms0 [] ms hms (by simp [SortedKeys])
        (by simp [NormalMembers])
      have hnorm : Normal (JValue.object ms) := by
        simp only [Normal]; exact hn
      have hdeep : nesting (encodeValue c (JValue.object ms)) ≤ maxNestingDepth := by
        have h0 := parseJSON_nesting body _ hp
        have h1 := nesting_decodeMembers c ms0 [] ms hms
        rw [nesting_encodeValue]
        simp only [nesting, nestingMembers] at h0 h1 ⊢
        omega
      refine ⟨.object ms, ?_, ?_⟩
      · simp only [decodeValue, hms, Option.map_some']
      · simp only [marshalIndent]
        rw [parseJSON_render c hlit (.object ms) hdeep]
        exact decodeValue_encodeValue c hrt _ hnorm


/-! ## The text printed after a successful query -/

/-- A query whose call succeeded with status below 400 prints the success
line, the gas used and the raw body, and after them the indented text exactly
when `json.Unmarshal` into the map succeeded. -/
theorem invokeContract_query_success {F : Type} (codec : FloatCodec F) (env : Env)
    (methodName : Text) (args : ArgMap) (w : World) (acct : Account) (res : PreExeRes)
    (hacct : w.currentAccount = some acct) (hname : inputLine w.stdin 0 ≠ [])
    (hq : env.QueryNativeContract acct (inputLine w.stdin 0) methodName (toStringMap args) =
      .ok res)
    (hs : res.ContractResponse.Status < 400) :
    (invokeContract codec env methodName args true w).stdout =
      w.stdout ++ [Msg.prompt "输入要调用的合约名称: ".toList,
        Msg.querySuccess (inputLine w.stdin 0) methodName, Msg.gasUsed res.GasUsed,
        Msg.rawResult res.ContractResponse.Body] ++
      (match unmarshalMap codec res.ContractResponse.Body with
        | some prettyJSON => [Msg.formatted (marshalIndent codec prettyJSON)]
        | none => []) := by
  rw [invokeContract_query codec env methodName args w acct res hacct hname hq,
    if_neg (by omega)]
  cases unmarshalMap codec res.ContractResponse.Body with
  | none => simp [emit, call, getStringInput]
  | some pj => simp [emit, call, getStringInput]

/-- C4 (amended): for a successful query with status below 400,
`invokeContract` prints the success line, the gas used and the raw body, and
after them the two-space-indented text of `json.MarshalIndent` exactly when
`json.Unmarshal` of the body into a `map[string]interface{}` succeeds, which
is exactly when the body is valid JSON that is `null` or an object all of
whose numbers convert to `float64`; for malformed JSON, and for every other
JSON value, only the raw body is printed. -/
theorem pretty_printed_iff_unmarshals_into_map {F : Type} (codec : FloatCodec F) (env : Env)
    (methodName : Text) (args : ArgMap) (w : World) (acct : Account) (res : PreExeRes)
    (hacct : w.currentAccount = some acct) (hname : inputLine w.stdin 0 ≠ [])
    (hq : env.QueryNativeContract acct (inputLine w.stdin 0) methodName (toStringMap args) =
      .ok res)
    (hs : res.ContractResponse.Status < 400) :
    ∃ pretty : List Msg,
      (invokeContract codec env methodName args true w).stdout =
        w.stdout ++ [Msg.prompt "输入要调用的合约名称: ".toList,
          Msg.querySuccess (inputLine w.stdin 0) methodName, Msg.gasUsed res.GasUsed,
          Msg.rawResult res.ContractResponse.Body] ++ pretty ∧
      (∀ prettyJSON, unmarshalMap codec res.ContractResponse.Body = some prettyJSON →
        pretty = [Msg.formatted (marshalIndent codec prettyJSON)]) ∧
      (unmarshalMap codec res.ContractResponse.Body = none → pretty = []) ∧
      ((unmarshalMap codec res.ContractResponse.Body).isSome = true ↔
        parseJSON res.ContractResponse.Body = some .null ∨
        ∃ ms, parseJSON res.ContractResponse.Body = some (.object ms) ∧
          ∀ lit ∈ numbersOfMembers ms, (codec.parseFloat lit).isSome = true) ∧
      (parseJSON res.ContractResponse.Body = none → pretty = []) := by
  refine ⟨_, invokeContract_query_success codec env methodName args w acct res hacct hname hq hs,
    ?_, ?_, unmarshalMap_isSome_iff codec _, ?_⟩
  · intro pj h; rw [h]
  · intro h; rw [h]
  · intro h
    have : unmarshalMap codec res.ContractResponse.Body = none := by
      unfold unmarshalMap; rw [h]
    rw [this]

/-- C3 (amended): for a successful query with status below 400 whose body
unmarshals into a `map[string]interface{}` (a JSON object or `null`), the
indented text is printed, and every indented text the handler prints parses
back to a value equal to the value obtained by parsing the body; for a body
that does not unmarshal into the map no indented text is printed.  The two
conversions between a number literal and `float64` are assumed to write a JSON
number and to round-trip. -/
theorem emitted_pretty_text_parses_back {F : Type} (codec : FloatCodec F)
    (hlit : ∀ f, isNumberLiteral (codec.formatFloat f) = true)
    (hrt : ∀ f, codec.parseFloat (codec.formatFloat f) = some f) (env : Env)
    (methodName : Text) (args : ArgMap) (w : World) (acct : Account) (res : PreExeRes)
    (hacct : w.currentAccount = some acct) (hname : inputLine w.stdin 0 ≠ [])
    (hq : env.QueryNativeContract acct (inputLine w.stdin 0) methodName (toStringMap args) =
      .ok res)
    (hs : res.ContractResponse.Status < 400) :
    ∃ out : List Msg,
      (invokeContract codec env methodName args true w).stdout =
        w.stdout ++ Msg.prompt "输入要调用的合约名称: ".toList :: out ∧
      (∀ prettyJSON, unmarshalMap codec res.ContractResponse.Body = some prettyJSON →
        Msg.formatted (marshalIndent codec prettyJSON) ∈ out) ∧
      (∀ text, Msg.formatted text ∈ out →
        ∃ v, unmarshalAny codec res.ContractResponse.Body = some v ∧
          unmarshalAny codec text = some v) ∧
      (unmarshalMap codec res.ContractResponse.Body = none →
        ∀ text, Msg.formatted text ∉ out) := by
  have h := invokeContract_query_success codec env methodName args w acct res hacct hname hq hs
  refine ⟨_, by rw [h]; simp only [List.append_assoc, List.cons_append, List.nil_append]; rfl,
    ?_, ?_, ?_⟩
  · intro pj hu
    rw [hu]
    simp
  · intro text hmem
    cases hu : unmarshalMap codec res.ContractResponse.Body with
    | none =>
      rw [hu] at hmem
      simp at hmem
    | some pj =>
      rw [hu] at hmem
      simp only [List.append_nil, List.cons_append, List.nil_append, List.mem_cons,
        reduceCtorEq, List.mem_singleton, Msg.formatted.injEq, false_or, List.not_mem_nil,
        or_false] at hmem
      subst hmem
      exact unmarshalAny_marshalIndent codec hlit hrt _ pj hu
  · intro hu text
    rw [hu]
    simp


theorem literalCodec_literal (f : { l : Text // isNumberLiteral l = true }) :
    isNumberLiteral (literalCodec.formatFloat f) = true := f.2

theorem literalCodec_parse_format (f : { l : Text // isNumberLiteral l = true }) :
    literalCodec.parseFloat (literalCodec.formatFloat f) = some f := by
  show (if h : isNumberLiteral f.1 = true then some ⟨f.1, h⟩ else none) = some f
  rw [dif_pos f.2]

/-- C4 fails as stated: the body `[1,2]` is valid JSON, yet for every float
conversion the handler prints the raw body only. -/
theorem array_body_is_valid_json_but_not_pretty_printed :
    parseJSON "[1,2]".toList = some (.array [.number ['1'], .number ['2']]) ∧
    ∀ (F : Type) (codec : FloatCodec F),
      (invokeContract codec (sampleEnv (sampleResponse 200 "[1,2]".toList))
        "QueryCopyright".toList [("copyright_id".toList, "c001".toList)] true
        (sampleWorld (some sampleAccount) "copyright1\n".toList)).stdout =
      [Msg.prompt "输入要调用的合约名称: ".toList,
       Msg.querySuccess "copyright1".toList "QueryCopyright".toList, Msg.gasUsed 7,
       Msg.rawResult "[1,2]".toList] := by
  have hp : parseJSON "[1,2]".toList = some (.array [.number ['1'], .number ['2']]) := by rfl
  refine ⟨hp, ?_⟩
  intro F codec
  have hu : unmarshalMap codec "[1,2]".toList = none := by
    unfold unmarshalMap; rw [hp]
  have h := invokeContract_query_success codec (sampleEnv (sampleResponse 200 "[1,2]".toList))
    "QueryCopyright".toList [("copyright_id".toList, "c001".toList)]
    (sampleWorld (some sampleAccount) "copyright1\n".toList) sampleAccount
    ⟨⟨200, "msg".toList, "[1,2]".toList⟩, 7⟩ rfl (by decide) rfl (by decide)
  rw [h]
  simp only [hu]
  rfl

/-- C3 fails as stated: the body `true` is valid JSON with value `true`, yet
the handler prints no indented text at all, so none that parses back. -/
theorem boolean_body_has_no_pretty_text :
    (∀ (F : Type) (codec : FloatCodec F),
      unmarshalAny codec "true".toList = some (.bool true)) ∧
    ∀ (F : Type) (codec : FloatCodec F) (text : Text),
      Msg.formatted text ∉
        (invokeContract codec (sampleEnv (sampleResponse 200 "true".toList))
          "QueryCopyright".toList [("copyright_id".toList, "c001".toList)] true
          (sampleWorld (some sampleAccount) "copyright1\n".toList)).stdout := by
  have hp : parseJSON "true".toList = some (.bool true) := by rfl
  refine ⟨?_, ?_⟩
  · intro F codec
    unfold unmarshalAny
    rw [hp]
    rfl
  · intro F codec text
    have hu : unmarshalMap codec "true".toList = none := by
      unfold unmarshalMap; rw [hp]
    have h := invokeContract_query_success codec (sampleEnv (sampleResponse 200 "true".toList))
      "QueryCopyright".toList [("copyright_id".toList, "c001".toList)]
      (sampleWorld (some sampleAccount) "copyright1\n".toList) sampleAccount
      ⟨⟨200, "msg".toList, "true".toList⟩, 7⟩ rfl (by decide) rfl (by decide)
    rw [h]
    simp only [hu]
    simp [sampleWorld]

/-- C4 (amended) at a concrete run: an object body is printed again with its
keys in order and two-space indentation. -/
theorem pretty_printed_iff_unmarshals_into_map_witness :
    ∃ pretty : List Msg,
      (invokeContract literalCodec
        (sampleEnv (sampleResponse 200 "\x7b\"b\":[1,2],\"a\":\"x\"\x7d".toList))
        "QueryCopyright".toList [("copyright_id".toList, "c001".toList)] true
        (sampleWorld (some sampleAccount) "copyright1\n".toList)).stdout =
      [Msg.prompt "输入要调用的合约名称: ".toList,
       Msg.querySuccess "copyright1".toList "QueryCopyright".toList, Msg.gasUsed 7,
       Msg.rawResult "\x7b\"b\":[1,2],\"a\":\"x\"\x7d".toList] ++ pretty ∧
      pretty = [Msg.formatted
        "\x7b\n  \"a\": \"x\",\n  \"b\": [\n    1,\n    2\n  ]\n\x7d".toList] := by
  obtain ⟨pretty, h1, h2, _⟩ := pretty_printed_iff_unmarshals_into_map literalCodec
    (sampleEnv (sampleResponse 200 "\x7b\"b\":[1,2],\"a\":\"x\"\x7d".toList))
    "QueryCopyright".toList [("copyright_id".toList, "c001".toList)]
    (sampleWorld (some sampleAccount) "copyright1\n".toList) sampleAccount
    ⟨⟨200, "msg".toList, "\x7b\"b\":[1,2],\"a\":\"x\"\x7d".toList⟩, 7⟩ rfl (by decide) rfl
    (by decide)
  refine ⟨pretty, h1, ?_⟩
  have hu : unmarshalMap literalCodec "\x7b\"b\":[1,2],\"a\":\"x\"\x7d".toList =
      some (some [("a".toList, .string "x".toList),
        ("b".toList, .array [.number ⟨['1'], rfl⟩, .number ⟨['2'], rfl⟩])]) := by rfl
  rw [h2 _ hu]
  rfl

/-- C3 (amended) at a concrete run: the indented text of an object body parses
to the value of the body. -/
theorem emitted_pretty_text_parses_back_witness :
    unmarshalAny literalCodec
      "\x7b\n  \"a\": \"x\",\n  \"b\": [\n    1,\n    2\n  ]\n\x7d".toList =
    unmarshalAny literalCodec "\x7b\"b\":[1,2],\"a\":\"x\"\x7d".toList := by
  obtain ⟨out, h1, h2, h3, _⟩ := emitted_pretty_text_parses_back literalCodec literalCodec_literal
    literalCodec_parse_format
    (sampleEnv (sampleResponse 200 "\x7b\"b\":[1,2],\"a\":\"x\"\x7d".toList))
    "QueryCopyright".toList [("copyright_id".toList, "c001".toList)]
    (sampleWorld (some sampleAccount) "copyright1\n".toList) sampleAccount
    ⟨⟨200, "msg".toList, "\x7b\"b\":[1,2],\"a\":\"x\"\x7d".toList⟩, 7⟩ rfl (by decide) rfl
    (by decide)
  have hu : unmarshalMap literalCodec "\x7b\"b\":[1,2],\"a\":\"x\"\x7d".toList =
      some (some [("a".toList, .string "x".toList),
        ("b".toList, .array [.number ⟨['1'], rfl⟩, .number ⟨['2'], rfl⟩])]) := by rfl
  obtain ⟨v, hv1, hv2⟩ := h3 _ (h2 _ hu)
  have hm : marshalIndent literalCodec (some [("a".toList, .string "x".toList),
        ("b".toList, .array [.number ⟨['1'], rfl⟩, .number ⟨['2'], rfl⟩])]) =
      "\x7b\n  \"a\": \"x\",\n  \"b\": [\n    1,\n    2\n  ]\n\x7d".toList := by rfl
  rw [hm] at hv2
  exact hv2.trans hv1.symm


/-! ## Witnesses of the wrapper and query properties -/

/-- C9 at concrete runs: a registration and a query of copyright `c001` on
contract `copyright1`. -/
theorem wrappers_pass_method_and_arguments_witness :
    (invokeRegisterCopyright literalCodec (sampleEnv (sampleResponse 200 []))
      (sampleWorld (some sampleAccount)
        "c001\n W \nA\naddr2\ntext\nd\ncopyright1\n".toList)).calls =
      [LibCall.InvokeNativeContract sampleAccount "copyright1".toList "RegisterCopyright".toList
        [("copyright_id".toList, "c001".toList), ("work_name".toList, "W".toList),
         ("author".toList, "A".toList), ("owner_address".toList, "addr2".toList),
         ("work_type".toList, "text".toList), ("description".toList, "d".toList)]] ∧
    (invokeQueryCopyright literalCodec (sampleEnv (sampleResponse 200 []))
      (sampleWorld (some sampleAccount) "c001\ncopyright1\n".toList)).calls =
      [LibCall.QueryNativeContract sampleAccount "copyright1".toList "QueryCopyright".toList
        [("copyright_id".toList, "c001".toList)]] :=
  ⟨(wrappers_pass_method_and_arguments literalCodec (sampleEnv (sampleResponse 200 []))
      (sampleWorld (some sampleAccount) "c001\n W \nA\naddr2\ntext\nd\ncopyright1\n".toList)
      sampleAccount rfl).1 (by decide),
   (wrappers_pass_method_and_arguments literalCodec (sampleEnv (sampleResponse 200 []))
      (sampleWorld (some sampleAccount) "c001\ncopyright1\n".toList)
      sampleAccount rfl).2.1 (by decide)⟩

/-- C5 at concrete runs: status 400 takes the failure branch, status 399 does
not. -/
theorem query_failure_iff_status_ge_400_witness :
    (∃ out : List Msg,
      (invokeContract literalCodec (sampleEnv (sampleResponse 400 "no".toList)) "M".toList []
        true (sampleWorld (some sampleAccount) "c1\n".toList)).stdout =
        Msg.prompt "输入要调用的合约名称: ".toList :: out ∧
      Msg.contractFailed "msg".toList ∈ out) ∧
    (∃ out : List Msg,
      (invokeContract literalCodec (sampleEnv (sampleResponse 399 "no".toList)) "M".toList []
        true (sampleWorld (some sampleAccount) "c1\n".toList)).stdout =
        Msg.prompt "输入要调用的合约名称: ".toList :: out ∧
      Msg.contractFailed "msg".toList ∉ out) := by
  constructor
  · obtain ⟨out, h1, _, _, h4, _⟩ := query_failure_iff_status_ge_400 literalCodec
      (sampleEnv (sampleResponse 400 "no".toList)) "M".toList []
      (sampleWorld (some sampleAccount) "c1\n".toList) sampleAccount
      ⟨⟨400, "msg".toList, "no".toList⟩, 7⟩ rfl (by decide) rfl
    exact ⟨out, h1, h4.2 (by decide)⟩
  · obtain ⟨out, h1, _, _, h4, _⟩ := query_failure_iff_status_ge_400 literalCodec
      (sampleEnv (sampleResponse 399 "no".toList)) "M".toList []
      (sampleWorld (some sampleAccount) "c1\n".toList) sampleAccount
      ⟨⟨399, "msg".toList, "no".toList⟩, 7⟩ rfl (by decide) rfl
    exact ⟨out, h1, fun hm => absurd (h4.1 hm) (by decide)⟩


end GoTest
